import Mathlib

/-!
Verification of the MSL Achievement / CSV Reconciliation core of the
field-sales dashboard repository.

The CSV engine manipulates JavaScript strings; we embed those strings as
`List Char` and model the JavaScript primitives that the source uses
(`trim`, `split`, `toUpperCase`, the `replace(/^"|"$/g, '')` quote strip,
`parseInt`, `parseFloat`, template-literal rendering of integers).
The data-store client (supabase) is modelled as an explicit list of rows;
per-operation failures of the store are modelled by a boolean oracle
indexed by the sequence number of the operation.
-/

deriving instance DecidableEq for Except

namespace SalesDash

/-! ### JavaScript string primitives over `List Char` -/

/-- Whitespace characters recognised by the model of `String.prototype.trim`
(the source data never contains the more exotic Unicode whitespace). -/
def isWsChar (c : Char) : Bool :=
  c == ' ' || c == '\t' || c == '\n' || c == '\r'

/-- Model of `s.trim()` : drop whitespace from both ends. -/
def trimChars (l : List Char) : List Char :=
  ((l.dropWhile isWsChar).reverse.dropWhile isWsChar).reverse

/-- Model of `s.split(sep)` for a one-character separator.  As in
JavaScript, splitting the empty string yields `[""]` and separators at the
ends produce empty fields. -/
def splitOnChar (sep : Char) : List Char → List (List Char)
  | [] => [[]]
  | c :: rest =>
    if c == sep then [] :: splitOnChar sep rest
    else
      match splitOnChar sep rest with
      | [] => [[c]]
      | h :: t => (c :: h) :: t

/-- Model of `s.replace(/^"|"$/g, '')` : remove one leading double quote
if present, and one trailing double quote if present (independently,
exactly as the regex does). -/
def stripEdgeQuotes (l : List Char) : List Char :=
  let l1 := if l.head? == some '"' then l.tail else l
  if l1.getLast? == some '"' then l1.dropLast else l1

/-- Model of `s.toUpperCase()` (ASCII suffices for the header names). -/
def toUpperChars (l : List Char) : List Char := l.map Char.toUpper

/-- Model of `xs.join(sep)` for a one-character separator. -/
def joinChar (sep : Char) (ls : List (List Char)) : List Char :=
  List.intercalate [sep] ls

def isDigitChar (c : Char) : Bool := 48 ≤ c.toNat && c.toNat ≤ 57

def isHexDigitChar (c : Char) : Bool :=
  isDigitChar c || (65 ≤ c.toNat && c.toNat ≤ 70) || (97 ≤ c.toNat && c.toNat ≤ 102)

def digitVal (c : Char) : Nat := c.toNat - 48

def hexDigitVal (c : Char) : Nat :=
  if isDigitChar c then c.toNat - 48
  else if c.toNat ≤ 70 then c.toNat - 55
  else c.toNat - 87

/-- Value of a big-endian decimal digit string. -/
def decimalValue (l : List Char) : Nat :=
  l.foldl (fun a c => 10 * a + digitVal c) 0

def hexValue (l : List Char) : Nat :=
  l.foldl (fun a c => 16 * a + hexDigitVal c) 0

/-- Model of JavaScript `parseInt(s)` with no radix argument: skip leading
whitespace, optional sign, a `0x`/`0X` prefix selects base 16, otherwise
the longest leading run of decimal digits is taken; `none` models `NaN`. -/
def parseIntJS (l : List Char) : Option Int :=
  let t := l.dropWhile isWsChar
  let sign : Int := if t.head? == some '-' then -1 else 1
  let t1 : List Char :=
    if t.head? == some '-' || t.head? == some '+' then t.tail else t
  let hex : Bool := t1.head? == some '0'
    && (t1.tail.head? == some 'x' || t1.tail.head? == some 'X')
  if hex then
    let ds := (t1.drop 2).takeWhile isHexDigitChar
    if ds.isEmpty then none else some (sign * (hexValue ds : Int))
  else
    let ds := t1.takeWhile isDigitChar
    if ds.isEmpty then none else some (sign * (decimalValue ds : Int))

/-- Model of JavaScript `parseFloat(s)` (decimal and exponent forms; the
`Infinity` literal never appears in this data and is not modelled).
Values are exact rationals; `none` models `NaN`. -/
def parseFloatJS (l : List Char) : Option ℚ :=
  let t := l.dropWhile isWsChar
  let sign : ℚ := match t with
    | '-' :: _ => -1
    | _ => 1
  let t1 : List Char := match t with
    | '-' :: r => r
    | '+' :: r => r
    | _ => t
  let ipart := t1.takeWhile isDigitChar
  let t2 := t1.drop ipart.length
  let fpart : List Char := match t2 with
    | '.' :: r => r.takeWhile isDigitChar
    | _ => []
  let t3 : List Char := match t2 with
    | '.' :: r => r.drop fpart.length
    | _ => t2
  if ipart.isEmpty && fpart.isEmpty then none
  else
    let base : ℚ := (decimalValue ipart : ℚ) + (decimalValue fpart : ℚ) / ((10 : ℚ) ^ fpart.length)
    let expo : Int := match t3 with
      | e :: rest =>
        if e == 'e' || e == 'E' then
          let esign : Int := match rest with
            | '-' :: _ => -1
            | _ => 1
          let r2 : List Char := match rest with
            | '-' :: rr => rr
            | '+' :: rr => rr
            | _ => rest
          let eds := r2.takeWhile isDigitChar
          if eds.isEmpty then 0 else esign * (decimalValue eds : Int)
        else 0
      | [] => 0
    some (sign * base * (10 : ℚ) ^ expo)

/-- Decimal digit characters of `n`, produced with a structural fuel so
that the definition reduces inside the kernel. -/
def natDigitsAux : Nat → Nat → List Char → List Char
  | 0, _, acc => acc
  | fuel + 1, n, acc =>
    if n = 0 then acc
    else natDigitsAux fuel (n / 10) (Nat.digitChar (n % 10) :: acc)

/-- Decimal rendering of a natural number, as a JavaScript template
literal would print it. -/
def natToChars (n : Nat) : List Char :=
  if n = 0 then ['0'] else natDigitsAux (n + 1) n []

/-- Rendering of an integer in a JavaScript template literal. -/
def intToChars (n : Int) : List Char :=
  if n < 0 then '-' :: natToChars n.natAbs else natToChars n.toNat

/-! ### CSV structure shared by the three upload components

Every `parseCsv` variant starts with
`const lines = text.trim().split('\n')`, an empty-input check,
`const headers = lines[0].split(',').map(h => h.trim().toUpperCase())`
and a required-column check. -/

/-- `text.trim().split('\n')` — the line list every parser works on. -/
def csvLines (text : List Char) : List (List Char) :=
  splitOnChar '\n' (trimChars text)

/-- `lines[0].split(',').map(h => h.trim().toUpperCase())`. -/
def csvHeaderCells (text : List Char) : List (List Char) :=
  (splitOnChar ',' (csvLines text).headI).map fun h => toUpperChars (trimChars h)

/-- `requiredHeaders.filter(h => !headers.includes(h))`. -/
def csvMissingHeaders (required : List (List Char)) (text : List Char) : List (List Char) :=
  required.filter fun h => !((csvHeaderCells text).contains h)

/-- `headers.indexOf(name)` — `none` models the `-1` sentinel. -/
def headerIndex (text : List Char) (name : List Char) : Option Nat :=
  (csvHeaderCells text).findIdx? (· = name)

/-- `values[i] || ''` where `i` may be the `-1` sentinel: an absent column
or a missing cell reads as the empty string. -/
def getCell (values : List (List Char)) : Option Nat → List Char
  | some i => values.getD i []
  | none => []

/-- Structural failures of a CSV parse: the two `alert`-and-return paths
taken before any row is examined. -/
inductive CsvFailure where
  | emptyInput
  | missingColumns (missing : List (List Char))
deriving DecidableEq

/-! ### MSL CSV upload — `parseCsv` in `MSLCsvUpload.tsx` -/

/-- Row-level error reasons of the MSL parser, one constructor per
`error` string assigned in the source (line numbers omitted). -/
inductive MSLRowError where
  | missingFields
  | duplicateSku
  | invalidPriority
deriving DecidableEq

/-- The `CsvMSLItem` record built for each data row. -/
structure CsvMSLItem where
  category : List Char
  sku_code : List Char
  product_name : List Char
  /-- `parseInt` result; `none` models `NaN`. -/
  priority : Option Int
  notes : List Char
  isValid : Bool
  error : Option MSLRowError
deriving DecidableEq

def mslRequiredHeaders : List (List Char) :=
  ["CATEGORY".toList, "SKU_CODE".toList, "PRODUCT_NAME".toList, "PRIORITY".toList]

/-- Cell decoding of one MSL data line:
`lines[i].split(',').map(v => v.trim().replace(/^"|"$/g, ''))`. -/
def mslRowCells (line : List Char) : List (List Char) :=
  (splitOnChar ',' line).map fun v => stripEdgeQuotes (trimChars v)

/-- The in-file duplicate key: `` `${category}-${sku}` ``. -/
def mslKey (category sku : List Char) : List Char :=
  category ++ '-' :: sku

/-- Processing of a single MSL data row: builds the `CsvMSLItem` and the
updated `seenSkus` set. -/
def parseMSLRow (categoryIndex skuIndex nameIndex priorityIndex notesIndex : Option Nat)
    (seen : List (List Char)) (line : List Char) : CsvMSLItem × List (List Char) :=
  let values := mslRowCells line
  let category := getCell values categoryIndex
  let sku := getCell values skuIndex
  let name := getCell values nameIndex
  let priorityStr := getCell values priorityIndex
  let notes := getCell values notesIndex
  let firstPass : Bool × Option MSLRowError × List (List Char) :=
    if category.isEmpty || sku.isEmpty || name.isEmpty || priorityStr.isEmpty then
      (false, some .missingFields, seen)
    else if seen.contains (mslKey category sku) then
      (false, some .duplicateSku, seen)
    else
      (true, none, mslKey category sku :: seen)
  let priority := parseIntJS priorityStr
  let priorityBad : Bool := match priority with
    | none => true
    | some p => decide (p < 1)
  let outcome : Bool × Option MSLRowError :=
    if firstPass.1 && priorityBad then (false, some .invalidPriority)
    else (firstPass.1, firstPass.2.1)
  ({ category := category, sku_code := sku, product_name := name,
     priority := priority, notes := notes,
     isValid := outcome.1, error := outcome.2 }, firstPass.2.2)

/-- One iteration of the MSL data-row loop: append the row's
`CsvMSLItem` and carry the updated `seenSkus` set. -/
def mslFoldStep (categoryIndex skuIndex nameIndex priorityIndex notesIndex : Option Nat)
    (st : List CsvMSLItem × List (List Char)) (line : List Char) :
    List CsvMSLItem × List (List Char) :=
  (st.1 ++ [(parseMSLRow categoryIndex skuIndex nameIndex priorityIndex notesIndex
      st.2 line).1],
   (parseMSLRow categoryIndex skuIndex nameIndex priorityIndex notesIndex st.2 line).2)

/-- `parseCsv` of `MSLCsvUpload.tsx`: structural checks, then the data-row
loop threading the `seenSkus` set. -/
def parseCsvMSL (text : List Char) : Except CsvFailure (List CsvMSLItem) :=
  let lines := csvLines text
  if lines.length < 2 then .error .emptyInput
  else
    let missing := csvMissingHeaders mslRequiredHeaders text
    if !missing.isEmpty then .error (.missingColumns missing)
    else
      let categoryIndex := headerIndex text "CATEGORY".toList
      let skuIndex := headerIndex text "SKU_CODE".toList
      let nameIndex := headerIndex text "PRODUCT_NAME".toList
      let priorityIndex := headerIndex text "PRIORITY".toList
      let notesIndex := headerIndex text "NOTES".toList
      .ok (lines.tail.foldl
        (mslFoldStep categoryIndex skuIndex nameIndex priorityIndex notesIndex) ([], [])).1

/-! ### MSL export — `exportMSL` in the MSL management component -/

/-- One stored `msl_items` row as read back for export (the DB column
`priority` is a non-null integer, `notes` is nullable). -/
structure MSLItem where
  category : List Char
  sku_code : List Char
  product_name : List Char
  priority : Int
  notes : Option (List Char)
deriving DecidableEq

/-- One exported CSV line:
`` `${item.category},${item.sku_code},"${item.product_name}",${item.priority},"${item.notes || ''}"` ``. -/
def exportMSLRow (item : MSLItem) : List Char :=
  item.category ++ ',' :: item.sku_code ++ ',' :: '"' :: item.product_name ++
    '"' :: ',' :: intToChars item.priority ++ ',' :: '"' :: (item.notes.getD []) ++ ['"']

def mslExportHeader : List Char :=
  "CATEGORY,SKU_CODE,PRODUCT_NAME,PRIORITY,NOTES".toList

/-- `exportMSL`: the header line followed by one rendered line per stored
item, joined with `'\n'`. -/
def exportMSL (items : List MSLItem) : List Char :=
  joinChar '\n' (mslExportHeader :: items.map exportMSLRow)

/-! ### MSL commit — `uploadMSL` in `MSLCsvUpload.tsx`

The store is a list of `msl_items` rows; `delete().eq('category', c)`
removes every row of category `c`, `insert(rows)` appends. -/

/-- The insert payload built for each valid item (`notes: item.notes || null`). -/
structure MSLInsertRow where
  category : List Char
  sku_code : List Char
  product_name : List Char
  priority : Option Int
  notes : Option (List Char)
deriving DecidableEq

def toMSLInsertRow (item : CsvMSLItem) : MSLInsertRow :=
  { category := item.category, sku_code := item.sku_code,
    product_name := item.product_name, priority := item.priority,
    notes := if item.notes.isEmpty then none else some item.notes }

/-- `[...new Set(xs)]` — distinct elements in order of first occurrence. -/
def dedupFirst : List (List Char) → List (List Char)
  | [] => []
  | x :: xs => x :: (dedupFirst xs).filter (· ≠ x)

/-- `uploadMSL`: filter the valid rows, delete every category mentioned by
a valid row, then insert all valid rows. -/
def uploadMSL (parsedItems : List CsvMSLItem) (db : List MSLInsertRow) : List MSLInsertRow :=
  let validItems := parsedItems.filter (·.isValid)
  let categoriesToUpdate := dedupFirst (validItems.map (·.category))
  let afterDelete :=
    categoriesToUpdate.foldl (fun d c => d.filter fun r => !(r.category = c : Bool)) db
  afterDelete ++ validItems.map toMSLInsertRow

/-! ### MSL achievement calculator

The loop shared by `fetchDashboardStats` (`Overview.tsx`) and
`fetchDailyData` (`DailyRecap.tsx`): per store, look up the MSL SKU set of
the store's category, skip the store when the set is absent or empty,
otherwise score `|bought ∩ msl| / |msl| * 100`; the overall figure is the
plain average of the per-store scores, `0` when no store was scored.
Numbers are exact rationals. -/

/-- The per-store facts the callers assemble: the store's category and the
set of distinct SKUs it bought in the period. -/
structure StoreVisitFacts where
  category : String
  boughtSkus : Finset String

/-- `mslByCategory[category]` — the record built from the `msl_items`
rows, modelled as an association list. -/
def mslLookup (mslByCategory : List (String × Finset String)) (c : String) :
    Option (Finset String) :=
  (mslByCategory.find? fun p => p.1 == c).map (·.2)

/-- Score of one store, `none` when the store is skipped by
`if (!categoryMSL || categoryMSL.size === 0) continue`. -/
def storeScore (mslByCategory : List (String × Finset String))
    (s : StoreVisitFacts) : Option ℚ :=
  match mslLookup mslByCategory s.category with
  | none => none
  | some msl =>
    if msl.card = 0 then none
    else some ((((s.boughtSkus ∩ msl).card : ℚ) / (msl.card : ℚ)) * 100)

/-- The whole computation, including the outer guards of the source
(`Object.keys(mslByCategory).length > 0`, `storesData.length > 0`,
`storeCount > 0 ? total / storeCount : 0`). -/
def computeAchievement (mslByCategory : List (String × Finset String))
    (stores : List StoreVisitFacts) : ℚ :=
  if mslByCategory.isEmpty then 0
  else if stores.isEmpty then 0
  else
    let scores := stores.filterMap (storeScore mslByCategory)
    if scores.length = 0 then 0 else scores.sum / (scores.length : ℚ)

/-! ### Products CSV upload — `parseCsv` cell decoding and `uploadProducts`

`ProductCsvUpload` (and `StoreCsvUpload`) commit valid rows one network
call at a time; the store's per-operation outcomes are a boolean oracle
`failAt : Nat → Bool` indexed by the operation sequence number. -/

/-- Cell decoding of one product data line:
`lines[i].split(',').map(v => v.trim())` — no quote stripping. -/
def productRowCells (line : List Char) : List (List Char) :=
  (splitOnChar ',' line).map trimChars

/-- Cell decoding of one store data line:
`lines[i].split(',').map(v => v.trim().replace(/^"|"$/g, ''))`. -/
def storeRowCells (line : List Char) : List (List Char) :=
  (splitOnChar ',' line).map fun v => stripEdgeQuotes (trimChars v)

inductive RowAction where
  | INSERT
  | UPDATE
deriving DecidableEq

/-- The `CsvProduct` record as it reaches `uploadProducts` (numbers are the
`parseFloat` results; `none` models `NaN`). -/
structure CsvProduct where
  sku_code : List Char
  product_name : List Char
  brand : List Char
  category : List Char
  price : Option ℚ
  discount : Option ℚ
  isValid : Bool
  action : Option RowAction
deriving DecidableEq

/-- A stored `products` row.  `brand` and `discount` are optional fields of
the abstract row so that the frame property of the commit can be stated;
the commit never writes them. -/
structure ProductRow where
  sku_code : List Char
  product_name : List Char
  category : List Char
  unit_price : Option ℚ
  brand : Option (List Char)
  discount : Option ℚ
  is_active : Option Bool
  updated_at : Option (List Char)
deriving DecidableEq

/-- Counters accumulated by the upsert commits. -/
structure UpsertCounters where
  added : Nat
  updated : Nat
  failed : Nat
deriving DecidableEq

/-- One iteration of the `uploadProducts` loop, acting on the store rows,
the counters and the operation sequence number: an
`update(...).eq('sku_code', ...)` when the row's action is `UPDATE`, an
`insert(...)` otherwise; a failing operation only increments `failed`. -/
def productStep (failAt : Nat → Bool) (now : List Char)
    (st : List ProductRow × UpsertCounters × Nat) (p : CsvProduct) :
    List ProductRow × UpsertCounters × Nat :=
  let (rows, cnt, op) := st
  if failAt op then (rows, { cnt with failed := cnt.failed + 1 }, op + 1)
  else if p.action == some RowAction.UPDATE then
    (rows.map fun r =>
      if r.sku_code = p.sku_code then
        { r with product_name := p.product_name, category := p.category,
                 unit_price := p.price, updated_at := some now }
      else r,
     { cnt with updated := cnt.updated + 1 }, op + 1)
  else
    (rows ++ [{ sku_code := p.sku_code, product_name := p.product_name,
                category := p.category, unit_price := p.price,
                brand := none, discount := none,
                is_active := some true, updated_at := none }],
     { cnt with added := cnt.added + 1 }, op + 1)

/-- `uploadProducts`: the sequential loop over the valid rows. -/
def uploadProducts (failAt : Nat → Bool) (now : List Char)
    (parsedProducts : List CsvProduct) (db : List ProductRow) :
    List ProductRow × UpsertCounters :=
  let validProducts := parsedProducts.filter (·.isValid)
  let final := validProducts.foldl (productStep failAt now) (db, ⟨0, 0, 0⟩, 0)
  (final.1, final.2.1)

/-! ### Stores CSV upload — `uploadStores` -/

/-- The `CsvStore` record as it reaches `uploadStores` (all cells are kept
as strings; `avg_order_value` is parsed only at commit time). -/
structure CsvStore where
  kode_toko : List Char
  nama_toko : List Char
  kategori : List Char
  alamat : List Char
  google_maps : List Char
  route : List Char
  telepon : List Char
  avg_order_value : List Char
  frekuensi_order : List Char
  kontak_utama : List Char
  catatan : List Char
  isValid : Bool
  action : Option RowAction
deriving DecidableEq

/-- A stored `stores` row (fields of the `storeData` payload). -/
structure StoreRow where
  store_code : List Char
  store_name : List Char
  category : List Char
  address : List Char
  gmaps_link : Option (List Char)
  route : List Char
  phone : Option (List Char)
  average_order_value : Option ℚ
  order_frequency : Option (List Char)
  key_contact : Option (List Char)
  notes : Option (List Char)
  created_by : List Char
deriving DecidableEq

/-- The `storeData` payload assembled for each valid row. -/
def storePayload (userId : List Char) (s : CsvStore) : StoreRow :=
  { store_code := s.kode_toko
    store_name := s.nama_toko
    category := s.kategori
    address := s.alamat
    gmaps_link := if s.google_maps.isEmpty then none else some s.google_maps
    route := if s.route.isEmpty then "A".toList else s.route
    phone := if s.telepon.isEmpty then none else some s.telepon
    average_order_value :=
      if s.avg_order_value.isEmpty then some 0 else parseFloatJS s.avg_order_value
    order_frequency := if s.frekuensi_order.isEmpty then none else some s.frekuensi_order
    key_contact := if s.kontak_utama.isEmpty then none else some s.kontak_utama
    notes := if s.catatan.isEmpty then none else some s.catatan
    created_by := userId }

/-- `uploadStores`: one operation per valid row — an
`update(...).eq('store_code', ...).eq('created_by', ...)` when the action
is `UPDATE`, an `insert(storeData)` otherwise; failures only increment
`failed`. -/
def storeStep (failAt : Nat → Bool) (userId : List Char)
    (st : List StoreRow × UpsertCounters × Nat) (s : CsvStore) :
    List StoreRow × UpsertCounters × Nat :=
  let (rows, cnt, op) := st
  let payload := storePayload userId s
  if failAt op then (rows, { cnt with failed := cnt.failed + 1 }, op + 1)
  else if s.action == some RowAction.UPDATE then
    (rows.map fun r =>
      if r.store_code = s.kode_toko ∧ r.created_by = userId then
        { r with store_name := payload.store_name, category := payload.category,
                 address := payload.address, gmaps_link := payload.gmaps_link,
                 route := payload.route, phone := payload.phone,
                 average_order_value := payload.average_order_value,
                 order_frequency := payload.order_frequency,
                 key_contact := payload.key_contact, notes := payload.notes }
      else r,
     { cnt with updated := cnt.updated + 1 }, op + 1)
  else
    (rows ++ [payload], { cnt with added := cnt.added + 1 }, op + 1)

/-- `uploadStores`: the sequential loop over the valid rows. -/
def uploadStores (failAt : Nat → Bool) (userId : List Char)
    (parsedStores : List CsvStore) (db : List StoreRow) :
    List StoreRow × UpsertCounters :=
  let validStores := parsedStores.filter (·.isValid)
  let final := validStores.foldl (storeStep failAt userId) (db, ⟨0, 0, 0⟩, 0)
  (final.1, final.2.1)

/-! ### Lemmas about the achievement calculator -/

lemma storeScore_nil (s : StoreVisitFacts) : storeScore [] s = none := by
  simp [storeScore, mslLookup]

lemma filterMap_storeScore_nil (stores : List StoreVisitFacts) :
    stores.filterMap (storeScore []) = [] := by
  rw [List.filterMap_eq_nil_iff]
  intro s _
  exact storeScore_nil s

lemma computeAchievement_eq_of_scores (m : List (String × Finset String))
    (stores : List StoreVisitFacts) :
    computeAchievement m stores =
      if stores.filterMap (storeScore m) = [] then 0
      else (stores.filterMap (storeScore m)).sum /
        ((stores.filterMap (storeScore m)).length : ℚ) := by
  unfold computeAchievement
  by_cases hm : m.isEmpty
  · have : m = [] := by simpa [List.isEmpty_iff] using hm
    subst this
    simp [filterMap_storeScore_nil]
  · by_cases hst : stores.isEmpty
    · have : stores = [] := by simpa [List.isEmpty_iff] using hst
      subst this
      simp
    · simp only [hm, hst, if_false, Bool.false_eq_true]
      rcases h : stores.filterMap (storeScore m) with _ | ⟨a, l⟩
      · simp [h]
      · simp [h]

/-- C1.  A store whose category has no MSL entry (absent from
`mslByCategory` or mapped to the empty set) is excluded from the
aggregate: dropping it from the store list leaves the overall achievement
unchanged, and when the remaining stores also contribute no score the
overall achievement is `0` (the calculator is total on ℚ — the zero branch
is taken explicitly instead of computing `0/0`). -/
theorem achievement_excludes_unscored (m : List (String × Finset String))
    (pre post : List StoreVisitFacts) (s : StoreVisitFacts)
    (h : mslLookup m s.category = none ∨ mslLookup m s.category = some ∅) :
    computeAchievement m (pre ++ s :: post) = computeAchievement m (pre ++ post) ∧
    ((pre ++ post).filterMap (storeScore m) = [] →
      computeAchievement m (pre ++ s :: post) = 0) := by
  have hs : storeScore m s = none := by
    rcases h with h | h <;> simp [storeScore, h]
  have hscores : (pre ++ s :: post).filterMap (storeScore m)
      = (pre ++ post).filterMap (storeScore m) := by
    simp [List.filterMap_append, List.filterMap_cons, hs]
  refine ⟨?_, ?_⟩
  · rw [computeAchievement_eq_of_scores, computeAchievement_eq_of_scores, hscores]
  · intro hnil
    rw [computeAchievement_eq_of_scores, hscores, hnil]
    simp

/-- Witness for C1, the boundary case from the specification:
`computeAchievement({}, [{category:"X", boughtSkus:{"A"}}])` is `0`. -/
theorem achievement_excludes_unscored_witness :
    computeAchievement [] [{ category := "X", boughtSkus := {"A"} }] = 0 := by
  have h := achievement_excludes_unscored []
      [] [] { category := "X", boughtSkus := {"A"} } (Or.inl rfl)
  simpa using h.2 (by simp)

/-- C2.  A store whose category has a non-empty MSL set `msl` is scored
`|bought ∩ msl| / |msl| * 100`, a rational in `[0, 100]`, and whenever at
least one store is scored the overall achievement is the unweighted
arithmetic mean of the per-store scores. -/
theorem achievement_formula_and_mean (m : List (String × Finset String))
    (stores : List StoreVisitFacts) (s : StoreVisitFacts) (msl : Finset String)
    (hs : mslLookup m s.category = some msl) (hne : 0 < msl.card) :
    storeScore m s = some (((s.boughtSkus ∩ msl).card : ℚ) / (msl.card : ℚ) * 100) ∧
    (0 : ℚ) ≤ ((s.boughtSkus ∩ msl).card : ℚ) / (msl.card : ℚ) * 100 ∧
    ((s.boughtSkus ∩ msl).card : ℚ) / (msl.card : ℚ) * 100 ≤ 100 ∧
    (stores.filterMap (storeScore m) ≠ [] →
      computeAchievement m stores =
        (stores.filterMap (storeScore m)).sum /
          ((stores.filterMap (storeScore m)).length : ℚ)) := by
  have hcard : (0 : ℚ) < (msl.card : ℚ) := by exact_mod_cast hne
  refine ⟨?_, ?_, ?_, ?_⟩
  · have h0 : msl.card ≠ 0 := Nat.pos_iff_ne_zero.mp hne
    simp [storeScore, hs, h0]
  · positivity
  · have hle : ((s.boughtSkus ∩ msl).card : ℚ) ≤ (msl.card : ℚ) := by
      exact_mod_cast Finset.card_le_card (Finset.inter_subset_right)
    calc ((s.boughtSkus ∩ msl).card : ℚ) / (msl.card : ℚ) * 100
        ≤ 1 * 100 := by
          apply mul_le_mul_of_nonneg_right _ (by norm_num)
          exact (div_le_one hcard).mpr hle
      _ = 100 := by norm_num
  · intro hnn
    rw [computeAchievement_eq_of_scores]
    simp [hnn]

/-- Witness for C2, the worked example from the specification: MSL
`{"A","B","C"}` for category `X`, one store in `X` bought `{"A","C"}` —
the store scores `200/3` (66.7%), and with it as the only store the
overall achievement is `200/3`. -/
theorem achievement_formula_and_mean_witness :
    storeScore [("X", {"A", "B", "C"})] { category := "X", boughtSkus := {"A", "C"} }
      = some (200 / 3) ∧
    computeAchievement [("X", {"A", "B", "C"})]
      [{ category := "X", boughtSkus := {"A", "C"} }] = 200 / 3 := by
  have h := achievement_formula_and_mean [("X", {"A", "B", "C"})]
      [{ category := "X", boughtSkus := {"A", "C"} }]
      { category := "X", boughtSkus := {"A", "C"} }
      {"A", "B", "C"} (by decide) (by decide)
  have hval : ((({"A", "C"} : Finset String) ∩ {"A", "B", "C"}).card : ℚ) /
      ((({"A", "B", "C"} : Finset String).card : ℚ)) * 100 = 200 / 3 := by
    rw [show (({"A", "C"} : Finset String) ∩ {"A", "B", "C"}).card = 2 from by decide,
      show ({"A", "B", "C"} : Finset String).card = 3 from by decide]
    norm_num
  refine ⟨hval ▸ h.1, ?_⟩
  have hmean := h.2.2.2 (by simp [List.filterMap_cons, h.1])
  rw [hmean]
  simp only [List.filterMap_cons, List.filterMap_nil, h.1, List.sum_cons, List.sum_nil,
    add_zero, List.length_cons, List.length_nil, Nat.zero_add, Nat.cast_one, div_one]
  exact hval

/-! ### Lemmas about the MSL replace commit -/

lemma mem_dedupFirst {x : List Char} {l : List (List Char)} :
    x ∈ dedupFirst l ↔ x ∈ l := by
  induction l with
  | nil => simp [dedupFirst]
  | cons a l ih =>
    by_cases hx : x = a
    · subst hx
      simp [dedupFirst]
    · simp [dedupFirst, hx, ih]

/-- The per-category delete loop of `uploadMSL` removes exactly the rows
whose category occurs in `cats`. -/
lemma foldl_delete_categories (cats : List (List Char)) (db : List MSLInsertRow) :
    cats.foldl (fun d c => d.filter fun r => !(r.category = c : Bool)) db
      = db.filter fun r => !(r.category ∈ cats : Bool) := by
  induction cats generalizing db with
  | nil => simp
  | cons c cs ih =>
    rw [List.foldl_cons, ih, List.filter_filter]
    congr 1
    funext r
    by_cases h1 : r.category = c <;> by_cases h2 : r.category ∈ cs <;>
      simp [h1, h2]

/-- C4.  The MSL replace commit is idempotent: committing the same parsed
rows twice yields the same store state as committing them once, because
the second commit deletes exactly the categories it re-inserts. -/
theorem uploadMSL_idempotent (parsedItems : List CsvMSLItem) (db : List MSLInsertRow) :
    uploadMSL parsedItems (uploadMSL parsedItems db) = uploadMSL parsedItems db := by
  simp only [uploadMSL]
  rw [foldl_delete_categories, foldl_delete_categories, List.filter_append]
  have hmap : ((parsedItems.filter (·.isValid)).map toMSLInsertRow).filter
      (fun r => !(r.category ∈ dedupFirst ((parsedItems.filter (·.isValid)).map (·.category)) : Bool))
      = [] := by
    rw [List.filter_eq_nil_iff]
    intro r hr
    rcases List.mem_map.mp hr with ⟨item, hitem, rfl⟩
    have : (toMSLInsertRow item).category ∈
        (parsedItems.filter (·.isValid)).map (·.category) :=
      List.mem_map.mpr ⟨item, hitem, rfl⟩
    simp [mem_dedupFirst.mpr this]
  rw [hmap, List.append_nil, List.filter_filter]
  simp only [Bool.and_self]

/-- C5.  Frame property of the MSL replace commit: a category that occurs
in no valid row of the upload keeps exactly its previous rows. -/
theorem uploadMSL_frame (parsedItems : List CsvMSLItem) (db : List MSLInsertRow)
    (c : List Char) (h : c ∉ (parsedItems.filter (·.isValid)).map (·.category)) :
    (uploadMSL parsedItems db).filter (fun r => (r.category = c : Bool))
      = db.filter (fun r => (r.category = c : Bool)) := by
  simp only [uploadMSL]
  rw [foldl_delete_categories, List.filter_append]
  have hmap : ((parsedItems.filter (·.isValid)).map toMSLInsertRow).filter
      (fun r => (r.category = c : Bool)) = [] := by
    rw [List.filter_eq_nil_iff]
    intro r hr
    rcases List.mem_map.mp hr with ⟨item, hitem, rfl⟩
    have hmem : (toMSLInsertRow item).category ∈
        (parsedItems.filter (·.isValid)).map (·.category) :=
      List.mem_map.mpr ⟨item, hitem, rfl⟩
    have : ¬ (toMSLInsertRow item).category = c := fun he => h (he ▸ hmem)
    simp [this]
  rw [hmap, List.append_nil, List.filter_filter]
  congr 1
  funext r
  by_cases hc : r.category = c
  · have hnc : c ∉ dedupFirst ((parsedItems.filter (·.isValid)).map (·.category)) := by
      rw [mem_dedupFirst]
      exact h
    simp [hc, hnc]
  · simp [hc]

/-- Witness for C5: an upload touching only category `A` leaves the single
stored row of category `B` in place. -/
theorem uploadMSL_frame_witness :
    (uploadMSL
        [{ category := "A".toList, sku_code := "S1".toList, product_name := "P".toList,
           priority := some 1, notes := [], isValid := true, error := none }]
        [{ category := "B".toList, sku_code := "S9".toList, product_name := "Q".toList,
           priority := some 2, notes := none }]).filter
      (fun r => (r.category = "B".toList : Bool))
      = [{ category := "B".toList, sku_code := "S9".toList, product_name := "Q".toList,
           priority := some 2, notes := none }] := by
  rw [uploadMSL_frame _ _ _ (by decide)]
  decide

/-! ### Lemmas about the upsert commits -/

lemma length_filter_three {α : Type} (l : List α) (p q : α → Bool) :
    (l.filter fun a => p a && !(q a)).length + (l.filter fun a => p a && q a).length
      + (l.filter fun a => !(p a)).length = l.length := by
  induction l with
  | nil => simp
  | cons a l ih => by_cases hp : p a <;> by_cases hq : q a <;> simp [hp, hq] <;> omega

lemma productStep_foldl_counters (failAt : Nat → Bool) (now : List Char)
    (l : List CsvProduct) :
    ∀ (db : List ProductRow) (cnt : UpsertCounters) (i : Nat),
    (l.foldl (productStep failAt now) (db, cnt, i)).2.1 =
      { added := cnt.added + ((List.enumFrom i l).filter fun e =>
          !(failAt e.1) && !(e.2.action == some RowAction.UPDATE)).length,
        updated := cnt.updated + ((List.enumFrom i l).filter fun e =>
          !(failAt e.1) && (e.2.action == some RowAction.UPDATE)).length,
        failed := cnt.failed + ((List.enumFrom i l).filter fun e => failAt e.1).length } := by
  induction l with
  | nil => intro db cnt i; simp [List.enumFrom]
  | cons p l ih =>
    intro db cnt i
    rw [List.foldl_cons]
    by_cases hf : failAt i
    · rw [show productStep failAt now (db, cnt, i) p
          = (db, { cnt with failed := cnt.failed + 1 }, i + 1) from by
        simp [productStep, hf]]
      rw [ih]
      simp [List.enumFrom, hf]
      omega
    · by_cases ha : p.action == some RowAction.UPDATE
      · rw [show productStep failAt now (db, cnt, i) p
            = (db.map fun r =>
                if r.sku_code = p.sku_code then
                  { r with product_name := p.product_name, category := p.category,
                           unit_price := p.price, updated_at := some now }
                else r,
               { cnt with updated := cnt.updated + 1 }, i + 1) from by
          simp [productStep, hf, ha]]
        rw [ih]
        simp [List.enumFrom, hf, ha]
        omega
      · rw [show productStep failAt now (db, cnt, i) p
            = (db ++ [{ sku_code := p.sku_code, product_name := p.product_name,
                        category := p.category, unit_price := p.price,
                        brand := none, discount := none,
                        is_active := some true, updated_at := none }],
               { cnt with added := cnt.added + 1 }, i + 1) from by
          simp [productStep, hf, ha]]
        rw [ih]
        simp [List.enumFrom, hf, ha]
        omega

lemma storeStep_foldl_counters (failAt : Nat → Bool) (userId : List Char)
    (l : List CsvStore) :
    ∀ (db : List StoreRow) (cnt : UpsertCounters) (i : Nat),
    (l.foldl (storeStep failAt userId) (db, cnt, i)).2.1 =
      { added := cnt.added + ((List.enumFrom i l).filter fun e =>
          !(failAt e.1) && !(e.2.action == some RowAction.UPDATE)).length,
        updated := cnt.updated + ((List.enumFrom i l).filter fun e =>
          !(failAt e.1) && (e.2.action == some RowAction.UPDATE)).length,
        failed := cnt.failed + ((List.enumFrom i l).filter fun e => failAt e.1).length } := by
  induction l with
  | nil => intro db cnt i; simp [List.enumFrom]
  | cons s l ih =>
    intro db cnt i
    rw [List.foldl_cons]
    by_cases hf : failAt i
    · rw [show storeStep failAt userId (db, cnt, i) s
          = (db, { cnt with failed := cnt.failed + 1 }, i + 1) from by
        simp [storeStep, hf]]
      rw [ih]
      simp [List.enumFrom, hf]
      omega
    · by_cases ha : s.action == some RowAction.UPDATE
      · rw [show storeStep failAt userId (db, cnt, i) s
            = (db.map fun r =>
                if r.store_code = s.kode_toko ∧ r.created_by = userId then
                  { r with store_name := (storePayload userId s).store_name,
                           category := (storePayload userId s).category,
                           address := (storePayload userId s).address,
                           gmaps_link := (storePayload userId s).gmaps_link,
                           route := (storePayload userId s).route,
                           phone := (storePayload userId s).phone,
                           average_order_value := (storePayload userId s).average_order_value,
                           order_frequency := (storePayload userId s).order_frequency,
                           key_contact := (storePayload userId s).key_contact,
                           notes := (storePayload userId s).notes }
                else r,
               { cnt with updated := cnt.updated + 1 }, i + 1) from by
          simp [storeStep, hf, ha]]
        rw [ih]
        simp [List.enumFrom, hf, ha]
        omega
      · rw [show storeStep failAt userId (db, cnt, i) s
            = (db ++ [storePayload userId s],
               { cnt with added := cnt.added + 1 }, i + 1) from by
          simp [storeStep, hf, ha]]
        rw [ih]
        simp [List.enumFrom, hf, ha]
        omega

/-- Projection of a stored product row to the fields the commit never
writes (`sku_code` is only used as the update key). -/
def productUntouched (r : ProductRow) : List Char × Option (List Char) × Option ℚ × Option Bool :=
  (r.sku_code, r.brand, r.discount, r.is_active)

lemma productStep_foldl_shape (failAt : Nat → Bool) (now : List Char)
    (l : List CsvProduct) :
    ∀ (db : List ProductRow) (cnt : UpsertCounters) (i : Nat),
    ∃ kept fresh,
      (l.foldl (productStep failAt now) (db, cnt, i)).1 = kept ++ fresh ∧
      kept.map productUntouched = db.map productUntouched ∧
      ∀ r ∈ fresh, r.brand = none ∧ r.discount = none ∧ r.is_active = some true := by
  induction l with
  | nil =>
    intro db cnt i
    exact ⟨db, [], by simp⟩
  | cons p l ih =>
    intro db cnt i
    rw [List.foldl_cons]
    by_cases hf : failAt i
    · rw [show productStep failAt now (db, cnt, i) p
          = (db, { cnt with failed := cnt.failed + 1 }, i + 1) from by
        simp [productStep, hf]]
      exact ih db _ _
    · by_cases ha : p.action == some RowAction.UPDATE
      · rw [show productStep failAt now (db, cnt, i) p
            = (db.map fun r =>
                if r.sku_code = p.sku_code then
                  { r with product_name := p.product_name, category := p.category,
                           unit_price := p.price, updated_at := some now }
                else r,
               { cnt with updated := cnt.updated + 1 }, i + 1) from by
          simp [productStep, hf, ha]]
        obtain ⟨kept, fresh, heq, hproj, hfresh⟩ := ih (db.map fun r =>
          if r.sku_code = p.sku_code then
            { r with product_name := p.product_name, category := p.category,
                     unit_price := p.price, updated_at := some now }
          else r) { cnt with updated := cnt.updated + 1 } (i + 1)
        refine ⟨kept, fresh, heq, ?_, hfresh⟩
        rw [hproj, List.map_map]
        apply List.map_congr_left
        intro r _
        by_cases hs : r.sku_code = p.sku_code <;> simp [productUntouched, hs]
      · rw [show productStep failAt now (db, cnt, i) p
            = (db ++ [{ sku_code := p.sku_code, product_name := p.product_name,
                        category := p.category, unit_price := p.price,
                        brand := none, discount := none,
                        is_active := some true, updated_at := none }],
               { cnt with added := cnt.added + 1 }, i + 1) from by
          simp [productStep, hf, ha]]
        obtain ⟨kept, fresh, heq, hproj, hfresh⟩ := ih (db ++
          [{ sku_code := p.sku_code, product_name := p.product_name,
             category := p.category, unit_price := p.price,
             brand := none, discount := none,
             is_active := some true, updated_at := none }])
          { cnt with added := cnt.added + 1 } (i + 1)
        have hlen : kept.length = db.length + 1 := by
          have := congrArg List.length hproj
          simpa using this
        have hkne : kept ≠ [] := by
          intro hnil
          rw [hnil] at hlen
          simp at hlen
        refine ⟨kept.dropLast, kept.getLast hkne :: fresh, ?_, ?_, ?_⟩
        · rw [heq]
          conv_lhs => rw [← List.dropLast_append_getLast hkne]
          simp
        · have hsplit : kept.map productUntouched
              = (kept.dropLast ++ [kept.getLast hkne]).map productUntouched := by
            rw [List.dropLast_append_getLast hkne]
          rw [hsplit, List.map_append] at hproj
          rw [List.map_append] at hproj
          have hlen2 : (kept.dropLast.map productUntouched).length
              = (db.map productUntouched).length := by
            simp [List.length_dropLast, hlen]
          exact (List.append_inj hproj (by simpa using hlen2)).1
        · intro r hr
          rcases List.mem_cons.mp hr with hr | hr
          · subst hr
            have hsplit : kept.map productUntouched
                = (kept.dropLast ++ [kept.getLast hkne]).map productUntouched := by
              rw [List.dropLast_append_getLast hkne]
            rw [hsplit, List.map_append] at hproj
            rw [List.map_append] at hproj
            have hlen2 : (kept.dropLast.map productUntouched).length
                = (db.map productUntouched).length := by
              simp [List.length_dropLast, hlen]
            have hlast := (List.append_inj hproj (by simpa using hlen2)).2
            simp only [List.map_cons, List.map_nil, List.map_singleton] at hlast
            have := List.singleton_injective hlast
            simp only [productUntouched, Prod.mk.injEq] at this
            exact ⟨this.2.1, this.2.2.1, this.2.2.2⟩
          · exact hfresh r hr

/-- C8.  The `UPSERT_BY_KEY` commits process every valid row independently:
with `failAt` the per-operation failure oracle, the result counters of
`uploadProducts` and `uploadStores` are exactly the counts of
(non-failing, non-`UPDATE`) rows, (non-failing, `UPDATE`) rows and failing
rows among the valid rows in order, and the three counters always sum to
the number of valid rows — no row aborts the batch. -/
theorem upsert_per_row_counters
    (failAt failAtS : Nat → Bool) (now userId : List Char)
    (parsedProducts : List CsvProduct) (dbP : List ProductRow)
    (parsedStores : List CsvStore) (dbS : List StoreRow) :
    ((uploadProducts failAt now parsedProducts dbP).2 =
      { added := ((parsedProducts.filter (·.isValid)).enum.filter fun e =>
          !(failAt e.1) && !(e.2.action == some RowAction.UPDATE)).length,
        updated := ((parsedProducts.filter (·.isValid)).enum.filter fun e =>
          !(failAt e.1) && (e.2.action == some RowAction.UPDATE)).length,
        failed := ((parsedProducts.filter (·.isValid)).enum.filter fun e =>
          failAt e.1).length } ∧
      (uploadProducts failAt now parsedProducts dbP).2.added +
        (uploadProducts failAt now parsedProducts dbP).2.updated +
        (uploadProducts failAt now parsedProducts dbP).2.failed =
        (parsedProducts.filter (·.isValid)).length) ∧
    ((uploadStores failAtS userId parsedStores dbS).2 =
      { added := ((parsedStores.filter (·.isValid)).enum.filter fun e =>
          !(failAtS e.1) && !(e.2.action == some RowAction.UPDATE)).length,
        updated := ((parsedStores.filter (·.isValid)).enum.filter fun e =>
          !(failAtS e.1) && (e.2.action == some RowAction.UPDATE)).length,
        failed := ((parsedStores.filter (·.isValid)).enum.filter fun e =>
          failAtS e.1).length } ∧
      (uploadStores failAtS userId parsedStores dbS).2.added +
        (uploadStores failAtS userId parsedStores dbS).2.updated +
        (uploadStores failAtS userId parsedStores dbS).2.failed =
        (parsedStores.filter (·.isValid)).length) := by
  have hEqP : (uploadProducts failAt now parsedProducts dbP).2 =
      { added := ((parsedProducts.filter (·.isValid)).enum.filter fun e =>
          !(failAt e.1) && !(e.2.action == some RowAction.UPDATE)).length,
        updated := ((parsedProducts.filter (·.isValid)).enum.filter fun e =>
          !(failAt e.1) && (e.2.action == some RowAction.UPDATE)).length,
        failed := ((parsedProducts.filter (·.isValid)).enum.filter fun e =>
          failAt e.1).length } := by
    simp only [uploadProducts]
    rw [productStep_foldl_counters failAt now (parsedProducts.filter (·.isValid)) dbP ⟨0, 0, 0⟩ 0]
    simp [List.enum]
  have hEqS : (uploadStores failAtS userId parsedStores dbS).2 =
      { added := ((parsedStores.filter (·.isValid)).enum.filter fun e =>
          !(failAtS e.1) && !(e.2.action == some RowAction.UPDATE)).length,
        updated := ((parsedStores.filter (·.isValid)).enum.filter fun e =>
          !(failAtS e.1) && (e.2.action == some RowAction.UPDATE)).length,
        failed := ((parsedStores.filter (·.isValid)).enum.filter fun e =>
          failAtS e.1).length } := by
    simp only [uploadStores]
    rw [storeStep_foldl_counters failAtS userId (parsedStores.filter (·.isValid)) dbS ⟨0, 0, 0⟩ 0]
    simp [List.enum]
  refine ⟨⟨hEqP, ?_⟩, hEqS, ?_⟩
  · rw [hEqP]
    have h3 := length_filter_three ((parsedProducts.filter (·.isValid)).enum)
      (fun e => !(failAt e.1)) (fun e => (e.2.action == some RowAction.UPDATE))
    simp only [Bool.not_not] at h3
    simpa using h3
  · rw [hEqS]
    have h3 := length_filter_three ((parsedStores.filter (·.isValid)).enum)
      (fun e => !(failAtS e.1)) (fun e => (e.2.action == some RowAction.UPDATE))
    simp only [Bool.not_not] at h3
    simpa using h3

/-- C10.  Frame property of the products commit: the stored rows split
into a prefix in one-to-one correspondence with the previous rows, on
which `sku_code`, `brand`, `discount` and `is_active` are untouched (an
update writes only `product_name`, `category`, `unit_price`,
`updated_at`), and freshly inserted rows, whose `brand` and `discount`
are unset (only `sku_code`, `product_name`, `category`, `unit_price`,
`is_active` are in the insert payload).  The parsed `BRAND` and
`DISCOUNT` cells are never persisted. -/
theorem products_commit_never_writes_brand_discount
    (failAt : Nat → Bool) (now : List Char)
    (parsedProducts : List CsvProduct) (db : List ProductRow) :
    ∃ kept fresh,
      (uploadProducts failAt now parsedProducts db).1 = kept ++ fresh ∧
      kept.map productUntouched = db.map productUntouched ∧
      (fresh.all fun r => decide (r.brand = none) && decide (r.discount = none) &&
        decide (r.is_active = some true)) = true := by
  obtain ⟨kept, fresh, heq, hproj, hfresh⟩ :=
    productStep_foldl_shape failAt now (parsedProducts.filter (·.isValid)) db ⟨0, 0, 0⟩ 0
  refine ⟨kept, fresh, heq, hproj, ?_⟩
  rw [List.all_eq_true]
  intro r hr
  obtain ⟨h1, h2, h3⟩ := hfresh r hr
  simp [h1, h2, h3]

/-- C9.  The in-file duplicate check of the MSL parser compares the
concatenation `category + "-" + sku`: the rows `(A, B-C)` and `(A-B, C)`
have distinct `(category, sku_code)` pairs yet the same concatenated key,
so the second row is rejected as a duplicate. -/
theorem msl_duplicate_key_is_string_concat :
    parseCsvMSL ("CATEGORY,SKU_CODE,PRODUCT_NAME,PRIORITY\nA,B-C,P1,1\nA-B,C,P2,1".toList) =
      .ok [{ category := "A".toList, sku_code := "B-C".toList, product_name := "P1".toList,
             priority := some 1, notes := [], isValid := true, error := none },
           { category := "A-B".toList, sku_code := "C".toList, product_name := "P2".toList,
             priority := some 1, notes := [], isValid := false,
             error := some MSLRowError.duplicateSku }] ∧
    ("A".toList, "B-C".toList) ≠ ("A-B".toList, "C".toList) ∧
    mslKey "A".toList "B-C".toList = mslKey "A-B".toList "C".toList := by
  decide

/-! ### Structure lemmas for `splitOnChar`, `trimChars` and friends -/

lemma splitOnChar_ne_nil (sep : Char) (l : List Char) : splitOnChar sep l ≠ [] := by
  induction l with
  | nil => simp [splitOnChar]
  | cons c r ih =>
    by_cases h : c == sep
    · simp [splitOnChar, h]
    · rcases hr : splitOnChar sep r with _ | ⟨x, xs⟩
      · exact absurd hr ih
      · simp [splitOnChar, h, hr]

lemma splitOnChar_cons_sep (sep : Char) (r : List Char) :
    splitOnChar sep (sep :: r) = [] :: splitOnChar sep r := by
  simp [splitOnChar]

lemma splitOnChar_cons_ne (sep c : Char) (r : List Char) (h : c ≠ sep) :
    splitOnChar sep (c :: r) =
      (c :: (splitOnChar sep r).headI) :: (splitOnChar sep r).tail := by
  rcases hr : splitOnChar sep r with _ | ⟨x, xs⟩
  · exact absurd hr (splitOnChar_ne_nil sep r)
  · simp [splitOnChar, h, hr]

/-- Splitting a separator-free list returns the singleton. -/
lemma splitOnChar_of_not_mem {sep : Char} {l : List Char} (h : sep ∉ l) :
    splitOnChar sep l = [l] := by
  induction l with
  | nil => simp [splitOnChar]
  | cons c r ih =>
    have hc : c ≠ sep := fun he => h (he ▸ List.mem_cons_self c r)
    rw [splitOnChar_cons_ne sep c r hc, ih (fun hm => h (List.mem_cons_of_mem c hm))]
    simp

/-- Splitting past the first separator occurrence. -/
lemma splitOnChar_append_cons {sep : Char} {x : List Char} (y : List Char) (h : sep ∉ x) :
    splitOnChar sep (x ++ sep :: y) = x :: splitOnChar sep y := by
  induction x with
  | nil => simp [splitOnChar_cons_sep]
  | cons c r ih =>
    have hc : c ≠ sep := fun he => h (he ▸ List.mem_cons_self c r)
    rw [List.cons_append, splitOnChar_cons_ne sep c _ hc,
      ih (fun hm => h (List.mem_cons_of_mem c hm))]
    simp

/-- Splitting an interpolation of separator-free pieces recovers them. -/
lemma splitOnChar_joinChar {sep : Char} {ls : List (List Char)} (hne : ls ≠ [])
    (h : ∀ l ∈ ls, sep ∉ l) :
    splitOnChar sep (joinChar sep ls) = ls := by
  induction ls with
  | nil => exact absurd rfl hne
  | cons x xs ih =>
    rcases xs with _ | ⟨y, ys⟩
    · simp [joinChar, List.intercalate, splitOnChar_of_not_mem (h x (by simp))]
    · have hjoin : joinChar sep (x :: y :: ys) = x ++ sep :: joinChar sep (y :: ys) := by
        simp [joinChar, List.intercalate, List.intersperse_cons_cons]
      rw [hjoin, splitOnChar_append_cons _ (h x (by simp)),
        ih (by simp) (fun l hl => h l (List.mem_cons_of_mem x hl))]

lemma splitOnChar_append_sep (sep : Char) (xs : List Char) :
    splitOnChar sep (xs ++ [sep]) = splitOnChar sep xs ++ [[]] := by
  induction xs with
  | nil => simp [splitOnChar]
  | cons c r ih =>
    by_cases hc : c = sep
    · subst hc
      rw [List.cons_append, splitOnChar_cons_sep, splitOnChar_cons_sep, ih]
      simp
    · rw [List.cons_append, splitOnChar_cons_ne sep c _ hc, splitOnChar_cons_ne sep c r hc, ih]
      rcases hr : splitOnChar sep r with _ | ⟨x, xs⟩
      · exact absurd hr (splitOnChar_ne_nil _ _)
      · simp

lemma splitOnChar_append_ne {sep c : Char} (xs : List Char) (hc : c ≠ sep) :
    splitOnChar sep (xs ++ [c]) =
      (splitOnChar sep xs).dropLast ++ [(splitOnChar sep xs).getLastD [] ++ [c]] := by
  induction xs with
  | nil => simp [splitOnChar, hc]
  | cons a r ih =>
    by_cases ha : a = sep
    · rw [ha]
      rw [List.cons_append, splitOnChar_cons_sep, splitOnChar_cons_sep, ih,
        List.dropLast_cons_of_ne_nil (by simp [splitOnChar_ne_nil]), List.getLastD_cons]
      rcases hr : splitOnChar sep r with _ | ⟨x, xs⟩
      · exact absurd hr (splitOnChar_ne_nil _ _)
      · simp
    · rw [List.cons_append, splitOnChar_cons_ne sep a _ ha, splitOnChar_cons_ne sep a r ha, ih]
      rcases hr : splitOnChar sep r with _ | ⟨x, xs⟩
      · exact absurd hr (splitOnChar_ne_nil _ _)
      · rcases xs with _ | ⟨y, ys⟩
        · simp
        · simp [List.dropLast_cons_of_ne_nil, List.getLastD_cons]

/-- Number of lines of the raw input holding at least one non-whitespace
character — the reading of "non-empty line" used by the specification. -/
def nonBlankLineCount (text : List Char) : Nat :=
  ((splitOnChar '\n' text).filter fun l => !(l.all isWsChar)).length

lemma nonBlankLineCount_cons_ws {c : Char} (r : List Char) (hws : isWsChar c = true) :
    nonBlankLineCount (c :: r) = nonBlankLineCount r := by
  by_cases hnl : c = '\n'
  · subst hnl
    simp [nonBlankLineCount, splitOnChar_cons_sep]
  · rw [nonBlankLineCount, splitOnChar_cons_ne '\n' c r hnl]
    rcases hr : splitOnChar '\n' r with _ | ⟨x, xs⟩
    · exact absurd hr (splitOnChar_ne_nil _ _)
    · rw [nonBlankLineCount, hr]
      simp only [List.headI, List.tail_cons, List.filter_cons, List.all_cons, hws,
        Bool.true_and]
      by_cases hx : x.all isWsChar <;> simp [hx]

lemma getLastD_singleton_append {α : Type} {l : List α} (h : l ≠ []) (d : α) :
    l.dropLast ++ [l.getLastD d] = l := by
  induction l generalizing d with
  | nil => exact absurd rfl h
  | cons a t ih =>
    rcases t with _ | ⟨b, ts⟩
    · simp [List.getLastD]
    · rw [List.dropLast_cons_of_ne_nil (by simp), List.getLastD_cons, List.cons_append,
        ih (by simp)]

lemma nonBlankLineCount_snoc_ws {c : Char} (xs : List Char) (hws : isWsChar c = true) :
    nonBlankLineCount (xs ++ [c]) = nonBlankLineCount xs := by
  by_cases hnl : c = '\n'
  · subst hnl
    rw [nonBlankLineCount, splitOnChar_append_sep, nonBlankLineCount, List.filter_append]
    simp
  · have hSne : splitOnChar '\n' xs ≠ [] := splitOnChar_ne_nil _ _
    rw [nonBlankLineCount, splitOnChar_append_ne xs hnl, nonBlankLineCount]
    conv_rhs => rw [← getLastD_singleton_append hSne ([] : List Char)]
    rw [List.filter_append, List.filter_append, List.length_append, List.length_append]
    congr 1
    simp only [List.filter_cons, List.filter_nil]
    have hblank : ((splitOnChar '\n' xs).getLastD [] ++ [c]).all isWsChar
        = ((splitOnChar '\n' xs).getLastD []).all isWsChar := by
      simp [List.all_append, hws]
    rw [hblank]
    cases hg : ((splitOnChar '\n' xs).getLastD []).all isWsChar <;> simp [hg]

lemma nonBlankLineCount_dropWhile (l : List Char) :
    nonBlankLineCount (l.dropWhile isWsChar) = nonBlankLineCount l := by
  induction l with
  | nil => rfl
  | cons c r ih =>
    by_cases hws : isWsChar c
    · rw [List.dropWhile_cons_of_pos hws, ih, nonBlankLineCount_cons_ws r hws]
    · rw [List.dropWhile_cons_of_neg hws]

lemma nonBlankLineCount_reverse_dropWhile (m : List Char) :
    nonBlankLineCount ((m.dropWhile isWsChar).reverse) = nonBlankLineCount m.reverse := by
  induction m with
  | nil => rfl
  | cons c r ih =>
    by_cases hws : isWsChar c
    · rw [List.dropWhile_cons_of_pos hws, ih]
      rw [List.reverse_cons, nonBlankLineCount_snoc_ws _ hws]
    · rw [List.dropWhile_cons_of_neg hws]

lemma nonBlankLineCount_trimChars (t : List Char) :
    nonBlankLineCount (trimChars t) = nonBlankLineCount t := by
  rw [trimChars, nonBlankLineCount_reverse_dropWhile, List.reverse_reverse,
    nonBlankLineCount_dropWhile]

lemma dropWhile_head?_false {p : Char → Bool} {l : List Char} {c : Char}
    (h : (l.dropWhile p).head? = some c) : p c = false := by
  induction l with
  | nil => simp at h
  | cons a r ih =>
    by_cases hp : p a
    · rw [List.dropWhile_cons_of_pos hp] at h
      exact ih h
    · rw [List.dropWhile_cons_of_neg hp] at h
      simp at h
      subst h
      exact Bool.eq_false_iff.mpr hp

lemma trimChars_getLast?_not_ws {t : List Char} {c : Char}
    (h : (trimChars t).getLast? = some c) : isWsChar c = false := by
  rw [trimChars, List.getLast?_reverse] at h
  exact dropWhile_head?_false h

lemma trimChars_head?_not_ws {t : List Char} {c : Char}
    (h : (trimChars t).head? = some c) : isWsChar c = false := by
  rw [trimChars, List.head?_reverse] at h
  rcases List.dropWhile_suffix (l := (t.dropWhile isWsChar).reverse) (p := isWsChar)
    with ⟨pre, hpre⟩
  have hne : (t.dropWhile isWsChar).reverse.dropWhile isWsChar ≠ [] := by
    intro hnil
    rw [hnil] at h
    simp at h
  have hgm : ((t.dropWhile isWsChar).reverse).getLast? = some c := by
    rw [← hpre, List.getLast?_append_of_ne_nil _ hne]
    exact h
  rw [List.getLast?_reverse] at hgm
  exact dropWhile_head?_false hgm

lemma getLastD_irrel {α : Type} {l : List α} (h : l ≠ []) (d d' : α) :
    l.getLastD d = l.getLastD d' := by
  rcases l with _ | ⟨a, t⟩
  · exact absurd rfl h
  · rw [List.getLastD_cons, List.getLastD_cons]

lemma getLastD_append_singleton {α : Type} (l : List α) (x d : α) :
    (l ++ [x]).getLastD d = x := by
  induction l generalizing d with
  | nil => rfl
  | cons a t ih => rw [List.cons_append, List.getLastD_cons, ih]

lemma lines_headI_not_blank {s : List Char} (hne : s ≠ [])
    (hh : isWsChar s.headI = false) :
    ((splitOnChar '\n' s).headI).all isWsChar = false := by
  rcases s with _ | ⟨c, r⟩
  · exact absurd rfl hne
  · have hnl : c ≠ '\n' := by
      intro he
      subst he
      simp [isWsChar] at hh
    rw [splitOnChar_cons_ne _ _ _ hnl]
    simp only [List.headI, List.all_cons]
    simp only [List.headI] at hh
    simp [hh]

lemma lines_getLastD_not_blank {s : List Char} {c : Char}
    (hlast : s.getLast? = some c) (hc : isWsChar c = false) :
    ((splitOnChar '\n' s).getLastD []).all isWsChar = false := by
  have hne : s ≠ [] := by
    intro hnil
    rw [hnil] at hlast
    simp at hlast
  have hs : s = s.dropLast ++ [c] := by
    have h1 := getLastD_singleton_append hne c
    have h2 : s.getLastD c = c := by
      rw [List.getLastD_eq_getLast?, hlast]
      rfl
    rw [h2] at h1
    exact h1.symm
  have hnl : c ≠ '\n' := by
    intro he
    subst he
    simp [isWsChar] at hc
  rw [hs, splitOnChar_append_ne _ hnl, getLastD_append_singleton]
  simp [List.all_append, hc]

lemma two_le_nonBlank_filter {L : List (List Char)} (hlen : 2 ≤ L.length)
    (h1 : (L.headI).all isWsChar = false) (h2 : (L.getLastD []).all isWsChar = false) :
    2 ≤ (L.filter fun l => !(l.all isWsChar)).length := by
  rcases L with _ | ⟨a, t⟩
  · simp at hlen
  · have htne : t ≠ [] := by
      intro hnil
      subst hnil
      simp at hlen
    have hsplit := getLastD_singleton_append htne ([] : List Char)
    have hgl : (a :: t).getLastD [] = t.getLastD [] := by
      rw [List.getLastD_cons, getLastD_irrel htne]
    rw [hgl] at h2
    simp only [List.headI] at h1
    have hmem : t.getLastD [] ∈ t := by
      rcases hq : t.getLast? with _ | ⟨x⟩
      · rw [List.getLast?_eq_none_iff] at hq
        exact absurd hq htne
      · rw [List.getLastD_eq_getLast?, hq]
        exact List.mem_of_mem_getLast? hq
    have hmemf : t.getLastD [] ∈ t.filter fun l => !(l.all isWsChar) :=
      List.mem_filter.mpr ⟨hmem, by rw [h2]; rfl⟩
    have hpos : 1 ≤ (t.filter fun l => !(l.all isWsChar)).length :=
      List.length_pos.mpr (List.ne_nil_of_mem hmemf)
    have hstep : ((a :: t).filter fun l => !(l.all isWsChar)).length
        = (t.filter fun l => !(l.all isWsChar)).length + 1 := by
      rw [List.filter_cons]
      simp [h1]
    omega

/-- The structural emptiness test of the parsers
(`text.trim().split('\n').length < 2`) holds exactly when the raw input
has fewer than two lines containing a non-whitespace character. -/
lemma csvLines_length_lt_two_iff (t : List Char) :
    (csvLines t).length < 2 ↔ nonBlankLineCount t < 2 := by
  constructor
  · intro h
    rw [← nonBlankLineCount_trimChars]
    calc nonBlankLineCount (trimChars t)
        ≤ (csvLines t).length := List.length_filter_le _ _
      _ < 2 := h
  · intro h
    by_contra hlen
    push_neg at hlen
    rcases hs : trimChars t with _ | ⟨c, r⟩
    · rw [csvLines, hs] at hlen
      simp [splitOnChar] at hlen
    · have hh : isWsChar (trimChars t).headI = false := by
        apply trimChars_head?_not_ws (t := t)
        rw [hs]
        rfl
      have hlne : (trimChars t) ≠ [] := by
        rw [hs]
        simp
      obtain ⟨cl, hcl⟩ : ∃ cl, (trimChars t).getLast? = some cl := by
        rcases hq : (trimChars t).getLast? with _ | ⟨cl⟩
        · rw [List.getLast?_eq_none_iff] at hq
          exact absurd hq hlne
        · exact ⟨cl, rfl⟩
      have hlw := trimChars_getLast?_not_ws hcl
      have hcount := two_le_nonBlank_filter (L := csvLines t)
        (by rw [csvLines]; exact hlen)
        (by rw [csvLines]; exact lines_headI_not_blank hlne (hs ▸ hh))
        (by rw [csvLines]; exact lines_getLastD_not_blank hcl hlw)
      rw [← nonBlankLineCount_trimChars] at h
      have : nonBlankLineCount (trimChars t)
          = ((csvLines t).filter fun l => !(l.all isWsChar)).length := rfl
      omega

lemma parseCsvMSL_eq_emptyInput {text : List Char} (h : (csvLines text).length < 2) :
    parseCsvMSL text = .error .emptyInput := by
  simp only [parseCsvMSL]
  rw [if_pos h]

lemma isEmpty_false_of_ne_nil {α : Type} {l : List α} (h : l ≠ []) : l.isEmpty = false := by
  rcases l with _ | ⟨a, as⟩
  · exact absurd rfl h
  · rfl

lemma parseCsvMSL_eq_missing {text : List Char}
    (h1 : ¬ (csvLines text).length < 2)
    (h2 : csvMissingHeaders mslRequiredHeaders text ≠ []) :
    parseCsvMSL text = .error (.missingColumns (csvMissingHeaders mslRequiredHeaders text)) := by
  simp only [parseCsvMSL]
  rw [if_neg h1, if_pos (by rw [isEmpty_false_of_ne_nil h2]; rfl)]

lemma parseCsvMSL_eq_ok {text : List Char}
    (h1 : ¬ (csvLines text).length < 2)
    (h2 : csvMissingHeaders mslRequiredHeaders text = []) :
    ∃ rows, parseCsvMSL text = .ok rows := by
  simp only [parseCsvMSL]
  rw [if_neg h1, if_neg (by rw [h2]; simp)]
  exact ⟨_, rfl⟩

/-- C6.  The MSL parser fails as a whole — producing no row outcome —
exactly when the input has fewer than two non-blank lines (empty-input
error) or the header line lacks a required column (schema-mismatch error
whose payload is precisely the filter of the required columns absent from
the header); in every other case the parse returns row outcomes. -/
theorem msl_structural_failure_iff (text : List Char) :
    (parseCsvMSL text = .error .emptyInput ↔ nonBlankLineCount text < 2) ∧
    (parseCsvMSL text = .error (.missingColumns (csvMissingHeaders mslRequiredHeaders text)) ↔
      (2 ≤ nonBlankLineCount text ∧ csvMissingHeaders mslRequiredHeaders text ≠ [])) ∧
    (∀ ms, parseCsvMSL text = .error (.missingColumns ms) →
      ms = csvMissingHeaders mslRequiredHeaders text) ∧
    ((∃ rows, parseCsvMSL text = .ok rows) ↔
      (2 ≤ nonBlankLineCount text ∧ csvMissingHeaders mslRequiredHeaders text = [])) := by
  by_cases h1 : (csvLines text).length < 2
  · have hpe := parseCsvMSL_eq_emptyInput h1
    have hnb : nonBlankLineCount text < 2 := (csvLines_length_lt_two_iff text).mp h1
    refine ⟨⟨fun _ => hnb, fun _ => hpe⟩, ⟨?_, ?_⟩, ?_, ⟨?_, ?_⟩⟩
    · intro h
      rw [hpe] at h
      simp at h
    · intro ⟨h, _⟩
      omega
    · intro ms h
      rw [hpe] at h
      simp at h
    · intro ⟨rows, h⟩
      rw [hpe] at h
      simp at h
    · intro ⟨h, _⟩
      omega
  · have hnb : 2 ≤ nonBlankLineCount text := by
      by_contra hlt
      exact h1 ((csvLines_length_lt_two_iff text).mpr (by omega))
    by_cases h2 : csvMissingHeaders mslRequiredHeaders text = []
    · obtain ⟨rows, hok⟩ := parseCsvMSL_eq_ok h1 h2
      refine ⟨⟨?_, ?_⟩, ⟨?_, ?_⟩, ?_, ⟨fun _ => ⟨hnb, h2⟩, fun _ => ⟨rows, hok⟩⟩⟩
      · intro h
        rw [hok] at h
        simp at h
      · intro h
        omega
      · intro h
        rw [hok] at h
        simp at h
      · intro ⟨_, hne⟩
        exact absurd h2 hne
      · intro ms h
        rw [hok] at h
        simp at h
    · have hpm := parseCsvMSL_eq_missing h1 h2
      refine ⟨⟨?_, ?_⟩, ⟨fun _ => ⟨hnb, h2⟩, fun _ => hpm⟩, ?_, ⟨?_, ?_⟩⟩
      · intro h
        rw [hpm] at h
        simp at h
      · intro h
        omega
      · intro ms h
        rw [hpm] at h
        simpa using h.symm
      · intro ⟨rows, h⟩
        rw [hpm] at h
        simp at h
      · intro ⟨_, he⟩
        exact absurd he h2

/-- Witness for C6: the one-line input `"hello"` fails with the
empty-input error, and a complete two-line CSV parses to row outcomes. -/
theorem msl_structural_failure_iff_witness :
    parseCsvMSL ("hello".toList) = .error .emptyInput ∧
    (∃ rows, parseCsvMSL ("CATEGORY,SKU_CODE,PRODUCT_NAME,PRIORITY\nA,B,C,1".toList)
      = .ok rows) := by
  constructor
  · exact (msl_structural_failure_iff ("hello".toList)).1.mpr (by decide)
  · exact (msl_structural_failure_iff
      ("CATEGORY,SKU_CODE,PRODUCT_NAME,PRIORITY\nA,B,C,1".toList)).2.2.2.mpr
      (by constructor <;> decide)

/-! ### Per-row cell decoding (C7) -/

lemma mslFold_prefix (ci si ni pi noi : Option Nat) (lines : List (List Char)) :
    ∀ (acc : List CsvMSLItem) (seen : List (List Char)),
    ∃ suffix, (lines.foldl (mslFoldStep ci si ni pi noi) (acc, seen)).1 = acc ++ suffix := by
  induction lines with
  | nil => exact fun acc seen => ⟨[], by simp⟩
  | cons line rest ih =>
    intro acc seen
    rw [List.foldl_cons]
    obtain ⟨suffix, hsf⟩ := ih (acc ++ [(parseMSLRow ci si ni pi noi seen line).1])
      ((parseMSLRow ci si ni pi noi seen line).2)
    refine ⟨(parseMSLRow ci si ni pi noi seen line).1 :: suffix, ?_⟩
    simp only [mslFoldStep]
    rw [hsf, List.append_assoc]
    rfl

lemma mslFold_get? (ci si ni pi noi : Option Nat) (lines : List (List Char)) :
    ∀ (acc : List CsvMSLItem) (seen : List (List Char)) (k : Nat) (item : CsvMSLItem),
    (lines.foldl (mslFoldStep ci si ni pi noi) (acc, seen)).1.get? (acc.length + k)
      = some item →
    ∃ line, lines.get? k = some line ∧
      item.category = getCell (mslRowCells line) ci ∧
      item.sku_code = getCell (mslRowCells line) si ∧
      item.product_name = getCell (mslRowCells line) ni ∧
      item.priority = parseIntJS (getCell (mslRowCells line) pi) ∧
      item.notes = getCell (mslRowCells line) noi := by
  induction lines with
  | nil =>
    intro acc seen k item h
    simp only [List.foldl_nil] at h
    have : acc.length ≤ acc.length + k := Nat.le_add_right _ _
    rw [List.get?_eq_none.mpr this] at h
    exact absurd h (by simp)
  | cons line rest ih =>
    intro acc seen k item h
    rw [List.foldl_cons] at h
    simp only [mslFoldStep] at h
    rcases k with _ | k
    · obtain ⟨suffix, hsf⟩ := mslFold_prefix ci si ni pi noi rest
        (acc ++ [(parseMSLRow ci si ni pi noi seen line).1])
        ((parseMSLRow ci si ni pi noi seen line).2)
      rw [hsf, List.append_assoc] at h
      rw [List.get?_append_right (Nat.le_add_right _ _)] at h
      simp only [Nat.add_zero, Nat.sub_self, List.singleton_append,
        List.get?_cons_zero] at h
      injection h with h
      exact ⟨line, rfl, by rw [← h]; exact ⟨rfl, rfl, rfl, rfl, rfl⟩⟩
    · have hlen : acc.length + (k + 1)
          = (acc ++ [(parseMSLRow ci si ni pi noi seen line).1]).length + k := by
        simp
        omega
      rw [hlen] at h
      obtain ⟨l, hl, hrest⟩ := ih _ _ k item h
      exact ⟨l, by rw [List.get?_cons_succ]; exact hl, hrest⟩

lemma parseCsvMSL_ok_eq {text : List Char} {rows : List CsvMSLItem}
    (hok : parseCsvMSL text = .ok rows) :
    rows = ((csvLines text).tail.foldl
      (mslFoldStep (headerIndex text ("CATEGORY".toList)) (headerIndex text ("SKU_CODE".toList))
        (headerIndex text ("PRODUCT_NAME".toList)) (headerIndex text ("PRIORITY".toList))
        (headerIndex text ("NOTES".toList))) ([], [])).1 := by
  by_cases h1 : (csvLines text).length < 2
  · rw [parseCsvMSL_eq_emptyInput h1] at hok
    simp at hok
  · by_cases h2 : csvMissingHeaders mslRequiredHeaders text = []
    · simp only [parseCsvMSL] at hok
      rw [if_neg h1, if_neg (by rw [h2]; simp)] at hok
      injection hok with hok
      exact hok.symm
    · rw [parseCsvMSL_eq_missing h1 h2] at hok
      simp at hok

lemma stripEdgeQuotes_wrap (inner : List Char) :
    stripEdgeQuotes ('"' :: inner ++ ['"']) = inner := by
  have h2 : (inner ++ ['"']).getLast? = some '"' := by
    rw [List.getLast?_append_of_ne_nil _ (by simp)]
    rfl
  simp only [stripEdgeQuotes, List.head?_cons, beq_self_eq_true, if_true,
    List.tail_cons, h2]
  simp

lemma rowCells_single {x : List Char} (h : ',' ∉ x) :
    mslRowCells x = [stripEdgeQuotes (trimChars x)] ∧
    storeRowCells x = [stripEdgeQuotes (trimChars x)] ∧
    productRowCells x = [trimChars x] := by
  rw [mslRowCells, storeRowCells, productRowCells, splitOnChar_of_not_mem h]
  exact ⟨rfl, rfl, rfl⟩

/-- Counterexample for C7: the Products parser trims its cells but does
not strip quotes, so a quoted cell keeps its double quotes — the MSL and
Stores decoding would have stripped them. -/
theorem product_cells_keep_quotes :
    productRowCells ("\"x\"".toList) = ["\"x\"".toList] ∧
    stripEdgeQuotes (trimChars ("\"x\"".toList)) = "x".toList ∧
    ("\"x\"".toList : List Char) ≠ "x".toList := by
  decide

/-- C7 (amended).  In the MSL (and Stores) parses every data line is
split on commas and every cell trimmed and stripped of one enclosing
double-quote pair; the Products parse splits on commas and trims only,
with no quote stripping.  The first part states the per-row field
extraction of the whole MSL parser; the second part the per-cell decoders
of the three parsers on a separator-free cell; the third the strip of an
enclosing quote pair. -/
theorem csv_cell_decoding (text : List Char) (rows : List CsvMSLItem)
    (hok : parseCsvMSL text = .ok rows) :
    (∀ k item, rows.get? k = some item →
      ∃ line, (csvLines text).tail.get? k = some line ∧
        item.category = getCell (mslRowCells line) (headerIndex text ("CATEGORY".toList)) ∧
        item.sku_code = getCell (mslRowCells line) (headerIndex text ("SKU_CODE".toList)) ∧
        item.product_name
          = getCell (mslRowCells line) (headerIndex text ("PRODUCT_NAME".toList)) ∧
        item.priority
          = parseIntJS (getCell (mslRowCells line) (headerIndex text ("PRIORITY".toList))) ∧
        item.notes = getCell (mslRowCells line) (headerIndex text ("NOTES".toList))) ∧
    (∀ x : List Char, ',' ∉ x →
      mslRowCells x = [stripEdgeQuotes (trimChars x)] ∧
      storeRowCells x = [stripEdgeQuotes (trimChars x)] ∧
      productRowCells x = [trimChars x]) ∧
    (∀ inner : List Char, stripEdgeQuotes ('"' :: inner ++ ['"']) = inner) := by
  refine ⟨?_, fun x hx => rowCells_single hx, fun inner => stripEdgeQuotes_wrap inner⟩
  intro k item hk
  rw [parseCsvMSL_ok_eq hok] at hk
  have := mslFold_get? (headerIndex text ("CATEGORY".toList))
    (headerIndex text ("SKU_CODE".toList)) (headerIndex text ("PRODUCT_NAME".toList))
    (headerIndex text ("PRIORITY".toList)) (headerIndex text ("NOTES".toList))
    (csvLines text).tail [] [] k item (by simpa using hk)
  exact this

/-- Witness for C7 (amended): a blank-padded quoted cell decodes to its
inner text in the MSL decoder, and the quote-pair strip behaves as
stated. -/
theorem csv_cell_decoding_witness :
    mslRowCells (" \"A\" ".toList) = ["A".toList] ∧
    stripEdgeQuotes ('"' :: "x".toList ++ ['"']) = "x".toList := by
  have h := csv_cell_decoding ("CATEGORY,SKU_CODE,PRODUCT_NAME,PRIORITY\nA,B,C,1".toList)
    [{ category := "A".toList, sku_code := "B".toList, product_name := "C".toList,
       priority := some 1, notes := [], isValid := true, error := none }] (by decide)
  refine ⟨?_, h.2.2 ("x".toList)⟩
  rw [(h.2.1 (" \"A\" ".toList) (by decide)).1]
  decide

/-! ### Decimal rendering and its parse (for the export round trip) -/

lemma natDigitsAux_eq : ∀ (fuel n : Nat) (acc : List Char), n ≤ fuel →
    natDigitsAux fuel n acc = ((Nat.digits 10 n).reverse.map Nat.digitChar) ++ acc := by
  intro fuel
  induction fuel with
  | zero =>
    intro n acc h
    interval_cases n
    simp [natDigitsAux]
  | succ fuel ih =>
    intro n acc h
    by_cases hn : n = 0
    · subst hn
      simp [natDigitsAux]
    · rw [natDigitsAux, if_neg hn]
      rw [ih (n / 10) _ (by
        have := Nat.div_lt_self (Nat.pos_of_ne_zero hn) (by norm_num : (1 : ℕ) < 10)
        omega)]
      rw [Nat.digits_def' (by norm_num : (1 : ℕ) < 10) (Nat.pos_of_ne_zero hn)]
      simp

lemma natToChars_pos_eq {n : Nat} (h : 0 < n) :
    natToChars n = (Nat.digits 10 n).reverse.map Nat.digitChar := by
  rw [natToChars, if_neg (by omega)]
  rw [natDigitsAux_eq (n + 1) n [] (by omega)]
  simp

lemma digitVal_digitChar {d : Nat} (h : d < 10) : digitVal (Nat.digitChar d) = d := by
  interval_cases d <;> decide

lemma isDigitChar_digitChar {d : Nat} (h : d < 10) : isDigitChar (Nat.digitChar d) = true := by
  interval_cases d <;> decide

lemma natToChars_all_digits {n : Nat} (h : 0 < n) :
    ∀ c ∈ natToChars n, isDigitChar c = true := by
  rw [natToChars_pos_eq h]
  intro c hc
  rcases List.mem_map.mp hc with ⟨d, hd, rfl⟩
  exact isDigitChar_digitChar
    (Nat.digits_lt_base (by norm_num) (List.mem_reverse.mp hd))

lemma natToChars_ne_nil {n : Nat} (h : 0 < n) : natToChars n ≠ [] := by
  rw [natToChars_pos_eq h]
  simp [Nat.digits_ne_nil_iff_ne_zero, Nat.pos_iff_ne_zero.mp h]

lemma decimalValue_append (a b : List Char) :
    decimalValue (a ++ b) = b.foldl (fun x c => 10 * x + digitVal c) (decimalValue a) := by
  rw [decimalValue, decimalValue, List.foldl_append]

lemma decimalValue_digits (L : List Nat) (hlt : ∀ d ∈ L, d < 10) :
    decimalValue (L.reverse.map Nat.digitChar) = Nat.ofDigits 10 L := by
  induction L with
  | nil => simp [decimalValue, Nat.ofDigits_nil]
  | cons d L ih =>
    rw [List.reverse_cons, List.map_append, decimalValue_append]
    rw [ih (fun x hx => hlt x (List.mem_cons_of_mem d hx))]
    simp only [List.map_cons, List.map_nil, List.foldl_cons, List.foldl_nil]
    rw [digitVal_digitChar (hlt d (List.mem_cons_self d L))]
    rw [Nat.ofDigits_cons]
    ring

lemma decimalValue_natToChars {n : Nat} (h : 0 < n) : decimalValue (natToChars n) = n := by
  rw [natToChars_pos_eq h,
    decimalValue_digits _ (fun d hd => Nat.digits_lt_base (by norm_num) hd),
    Nat.ofDigits_digits]

lemma digit_not_ws {c : Char} (h : isDigitChar c = true) : isWsChar c = false := by
  rw [isDigitChar, Bool.and_eq_true, decide_eq_true_eq, decide_eq_true_eq] at h
  rw [isWsChar]
  have hne : ∀ x : Char, c.toNat ≠ x.toNat → (c == x) = false := by
    intro x hx
    rw [beq_eq_false_iff_ne]
    intro he
    exact hx (he ▸ rfl)
  rw [hne ' ' (by rw [show (' ' : Char).toNat = 32 from rfl]; omega),
    hne '\t' (by rw [show ('\t' : Char).toNat = 9 from rfl]; omega),
    hne '\n' (by rw [show ('\n' : Char).toNat = 10 from rfl]; omega),
    hne '\r' (by rw [show ('\r' : Char).toNat = 13 from rfl]; omega)]
  rfl

lemma digit_ne {c x : Char} (h : isDigitChar c = true) (hx : x.toNat < 48 ∨ 57 < x.toNat) :
    c ≠ x := by
  rw [isDigitChar, Bool.and_eq_true, decide_eq_true_eq, decide_eq_true_eq] at h
  intro he
  subst he
  omega

lemma digit_beq_ne {c x : Char} (h : isDigitChar c = true)
    (hx : x.toNat < 48 ∨ 57 < x.toNat) : (c == x) = false :=
  beq_eq_false_iff_ne.mpr (digit_ne h hx)

lemma takeWhile_all {p : Char → Bool} {l : List Char} (h : ∀ c ∈ l, p c = true) :
    l.takeWhile p = l := by
  induction l with
  | nil => rfl
  | cons c r ih =>
    rw [List.takeWhile_cons, if_pos (h c (List.mem_cons_self c r)),
      ih (fun x hx => h x (List.mem_cons_of_mem c hx))]

lemma contains_eq_false_of_not_mem {l : List (List Char)} {a : List Char} (h : a ∉ l) :
    l.contains a = false := by
  rw [List.contains_eq_any_beq, List.any_eq_false]
  intro x hx hb
  rw [beq_iff_eq] at hb
  exact h (hb ▸ hx)

/-- `parseInt` on a non-empty all-digit string returns its decimal value. -/
lemma parseIntJS_digits {l : List Char} (hne : l ≠ [])
    (hd : ∀ c ∈ l, isDigitChar c = true) :
    parseIntJS l = some ((decimalValue l : Nat) : Int) := by
  rcases l with _ | ⟨c, rest⟩
  · exact absurd rfl hne
  have hc := hd c (List.mem_cons_self c rest)
  have hnws : isWsChar c = false := digit_not_ws hc
  have hdrop : (c :: rest).dropWhile isWsChar = c :: rest :=
    List.dropWhile_cons_of_neg (by simp [hnws])
  have hsome : ∀ (a b : Char), ((some a : Option Char) == some b) = (a == b) :=
    fun a b => rfl
  have hcm : (c == '-') = false := digit_beq_ne hc (Or.inl (by decide))
  have hcp : (c == '+') = false := digit_beq_ne hc (Or.inl (by decide))
  have hhex : (((c :: rest).tail.head? == some 'x')
      || ((c :: rest).tail.head? == some 'X')) = false := by
    rcases rest with _ | ⟨d, rest'⟩
    · rfl
    · have hdg := hd d (List.mem_cons_of_mem c (List.mem_cons_self d rest'))
      simp only [List.tail_cons, List.head?_cons, hsome]
      rw [digit_beq_ne hdg (Or.inr (by decide)), digit_beq_ne hdg (Or.inr (by decide))]
      rfl
  have htake : (c :: rest).takeWhile isDigitChar = c :: rest := takeWhile_all hd
  simp only [parseIntJS, hdrop, List.head?_cons, hsome, hcm, hcp, Bool.or_self,
    Bool.false_or, if_false, hhex, Bool.and_false, htake, List.isEmpty_cons,
    Bool.false_eq_true, one_mul]

/-- `trim` is the identity when both ends are not whitespace. -/
lemma trimChars_eq_self {l : List Char}
    (hh : ∀ c, l.head? = some c → isWsChar c = false)
    (hl : ∀ c, l.getLast? = some c → isWsChar c = false) : trimChars l = l := by
  rcases l with _ | ⟨c, r⟩
  · rfl
  · have h1 : (c :: r).dropWhile isWsChar = c :: r :=
      List.dropWhile_cons_of_neg (by simp [hh c rfl])
    rw [trimChars, h1]
    rcases hrev : (c :: r).reverse with _ | ⟨d, rr⟩
    · exact absurd hrev (by simp)
    · have hd : isWsChar d = false := by
        apply hl
        rw [← List.head?_reverse, hrev]
        rfl
      calc ((d :: rr).dropWhile isWsChar).reverse
          = (d :: rr).reverse := by rw [List.dropWhile_cons_of_neg (by simp [hd])]
        _ = ((c :: r).reverse).reverse := by rw [hrev]
        _ = c :: r := List.reverse_reverse _

/-- The quote strip is the identity when neither end is a double quote. -/
lemma stripEdgeQuotes_eq_self {l : List Char}
    (hh : ∀ c, l.head? = some c → (c == '"') = false)
    (hl : ∀ c, l.getLast? = some c → (c == '"') = false) : stripEdgeQuotes l = l := by
  have h1 : (l.head? == some '"') = false := by
    rcases hc : l.head? with _ | ⟨c⟩
    · rfl
    · exact hh c hc
  rw [stripEdgeQuotes]
  simp only [h1, Bool.false_eq_true, if_false]
  have h2 : (l.getLast? == some '"') = false := by
    rcases hc : l.getLast? with _ | ⟨c⟩
    · rfl
    · exact hl c hc
  simp only [h2, Bool.false_eq_true, if_false]

/-- On a string of decimal digits both `trim` and the quote strip are the
identity. -/
lemma decode_digits_eq_self {l : List Char} (hd : ∀ c ∈ l, isDigitChar c = true) :
    stripEdgeQuotes (trimChars l) = l := by
  have ht : trimChars l = l :=
    trimChars_eq_self
      (fun c hc => digit_not_ws (hd c (List.mem_of_mem_head? hc)))
      (fun c hc => digit_not_ws (hd c (List.mem_of_mem_getLast? hc)))
  rw [ht]
  exact stripEdgeQuotes_eq_self
    (fun c hc => digit_beq_ne (hd c (List.mem_of_mem_head? hc)) (Or.inl (by decide)))
    (fun c hc => digit_beq_ne (hd c (List.mem_of_mem_getLast? hc)) (Or.inl (by decide)))

/-! ### The MSL export round trip (C3) -/

/-- Conditions under which a stored item survives the naive export /
re-parse cycle: free of the separator characters, with `category` and
`sku_code` already in decoded (trimmed, unquoted) form and non-empty, a
non-empty product name, and a positive priority. -/
def ExportSafe (i : MSLItem) : Prop :=
  (',' ∉ i.category ∧ '\n' ∉ i.category ∧ trimChars i.category = i.category ∧
    stripEdgeQuotes i.category = i.category ∧ i.category ≠ []) ∧
  (',' ∉ i.sku_code ∧ '\n' ∉ i.sku_code ∧ trimChars i.sku_code = i.sku_code ∧
    stripEdgeQuotes i.sku_code = i.sku_code ∧ i.sku_code ≠ []) ∧
  (',' ∉ i.product_name ∧ '\n' ∉ i.product_name ∧ i.product_name ≠ []) ∧
  (',' ∉ i.notes.getD [] ∧ '\n' ∉ i.notes.getD []) ∧
  1 ≤ i.priority

lemma intToChars_pos {p : Int} (h : 1 ≤ p) : intToChars p = natToChars p.toNat := by
  rw [intToChars, if_neg (by omega)]

lemma intToChars_pos_digits {p : Int} (h : 1 ≤ p) :
    ∀ c ∈ intToChars p, isDigitChar c = true := by
  rw [intToChars_pos h]
  exact natToChars_all_digits (by omega)

lemma exportMSLRow_eq_cells (i : MSLItem) :
    exportMSLRow i =
      i.category ++ ',' :: (i.sku_code ++ ',' :: (('"' :: i.product_name ++ ['"']) ++
        ',' :: (intToChars i.priority ++
          ',' :: ('"' :: (i.notes.getD []) ++ ['"'])))) := by
  simp [exportMSLRow, List.append_assoc]

lemma exportMSLRow_split (i : MSLItem) (hs : ExportSafe i) :
    splitOnChar ',' (exportMSLRow i) =
      [i.category, i.sku_code, '"' :: i.product_name ++ ['"'],
        intToChars i.priority, '"' :: (i.notes.getD []) ++ ['"']] := by
  obtain ⟨⟨hc1, -, -, -, -⟩, ⟨hs1, -, -, -, -⟩, ⟨hn1, -, -⟩, ⟨ht1, -⟩, hp⟩ := hs
  have hq : (',' : Char) ≠ '"' := by decide
  have hcell3 : (',' : Char) ∉ '"' :: i.product_name ++ ['"'] := by
    simp [hq, hn1]
  have hprio : (',' : Char) ∉ intToChars i.priority := by
    intro hm
    exact absurd rfl (digit_ne (intToChars_pos_digits hp ',' hm) (Or.inl (by decide)))
  have hcell5 : (',' : Char) ∉ '"' :: (i.notes.getD []) ++ ['"'] := by
    simp [hq, ht1]
  rw [exportMSLRow_eq_cells,
    splitOnChar_append_cons _ hc1,
    splitOnChar_append_cons _ hs1,
    splitOnChar_append_cons _ hcell3,
    splitOnChar_append_cons _ hprio,
    splitOnChar_of_not_mem hcell5]

lemma quoted_cell_decode (inner : List Char) :
    stripEdgeQuotes (trimChars ('"' :: inner ++ ['"'])) = inner := by
  have htr : trimChars ('"' :: inner ++ ['"']) = '"' :: inner ++ ['"'] := by
    apply trimChars_eq_self
    · intro c hc
      simp only [List.head?_cons] at hc
      injection hc with hc
      subst hc
      rfl
    · intro c hc
      rw [List.getLast?_append_of_ne_nil _ (by simp)] at hc
      injection (show some '"' = some c from hc) with hc
      subst hc
      rfl
  rw [htr]
  exact stripEdgeQuotes_wrap inner

lemma mslRowCells_export (i : MSLItem) (hs : ExportSafe i) :
    mslRowCells (exportMSLRow i) =
      [i.category, i.sku_code, i.product_name, intToChars i.priority,
        i.notes.getD []] := by
  rw [mslRowCells, exportMSLRow_split i hs]
  obtain ⟨⟨-, -, hc3, hc4, -⟩, ⟨-, -, hs3, hs4, -⟩, -, -, hp⟩ := hs
  simp only [List.map_cons, List.map_nil]
  rw [hc3, hc4, hs3, hs4, quoted_cell_decode, quoted_cell_decode,
    decode_digits_eq_self (intToChars_pos_digits hp)]

lemma parseMSLRow_export {i : MSLItem} {seen : List (List Char)}
    (hs : ExportSafe i) (hseen : mslKey i.category i.sku_code ∉ seen) :
    parseMSLRow (some 0) (some 1) (some 2) (some 3) (some 4) seen (exportMSLRow i)
      = ({ category := i.category, sku_code := i.sku_code,
           product_name := i.product_name,
           priority := some i.priority,
           notes := i.notes.getD [],
           isValid := true, error := none },
         mslKey i.category i.sku_code :: seen) := by
  have hcells := mslRowCells_export i hs
  obtain ⟨⟨-, -, -, -, hc5⟩, ⟨-, -, -, -, hs5⟩, ⟨-, -, hn3⟩, -, hp⟩ := hs
  have hprioNe : intToChars i.priority ≠ [] := by
    rw [intToChars_pos hp]
    exact natToChars_ne_nil (by omega)
  have hparse : parseIntJS (intToChars i.priority) = some i.priority := by
    rw [intToChars_pos hp,
      parseIntJS_digits (natToChars_ne_nil (by omega)) (natToChars_all_digits (by omega)),
      decimalValue_natToChars (by omega)]
    congr 1
    omega
  have hbad : decide (i.priority < 1) = false := decide_eq_false (by omega)
  simp only [parseMSLRow, hcells, getCell, List.getD_cons_zero, List.getD_cons_succ,
    isEmpty_false_of_ne_nil hc5, isEmpty_false_of_ne_nil hs5, isEmpty_false_of_ne_nil hn3,
    isEmpty_false_of_ne_nil hprioNe, Bool.or_self, Bool.or_false, Bool.false_or,
    Bool.false_eq_true, if_false, contains_eq_false_of_not_mem hseen, hparse, hbad,
    Bool.and_false]

lemma nl_not_mem_exportMSLRow {i : MSLItem} (hs : ExportSafe i) :
    '\n' ∉ exportMSLRow i := by
  obtain ⟨⟨-, hcn, -, -, -⟩, ⟨-, hsn, -, -, -⟩, ⟨-, hnn, -⟩, ⟨-, htn⟩, hp⟩ := hs
  have hprio : ('\n' : Char) ∉ intToChars i.priority := by
    intro hm
    exact absurd rfl (digit_ne (intToChars_pos_digits hp '\n' hm) (Or.inl (by decide)))
  intro hm
  simp [exportMSLRow, hcn, hsn, hnn, htn, hprio] at hm

lemma getLast?_exportMSLRow (i : MSLItem) : (exportMSLRow i).getLast? = some '"' := by
  rw [exportMSLRow]
  repeat rw [List.getLast?_append_of_ne_nil _ (by simp)]
  rfl

lemma joinChar_head?_of_ne_nil (sep : Char) (x : List Char) (xs : List (List Char))
    (hx : x ≠ []) : (joinChar sep (x :: xs)).head? = x.head? := by
  rcases xs with _ | ⟨y, ys⟩
  · simp [joinChar, List.intercalate]
  · have : joinChar sep (x :: y :: ys) = x ++ sep :: joinChar sep (y :: ys) := by
      simp [joinChar, List.intercalate, List.intersperse_cons_cons]
    rw [this, List.head?_append_of_ne_nil _ hx]

lemma getLast?_cons_of_ne_nil {α : Type} (a : α) {l : List α} (h : l ≠ []) :
    (a :: l).getLast? = l.getLast? := by
  rcases l with _ | ⟨b, t⟩
  · exact absurd rfl h
  · exact List.getLast?_cons_cons

lemma joinChar_getLast? (sep : Char) :
    ∀ (ls : List (List Char)) (r : List Char) (c : Char),
    ls.getLast? = some r → r.getLast? = some c →
    (joinChar sep ls).getLast? = some c := by
  intro ls
  induction ls with
  | nil =>
    intro r c hr
    simp at hr
  | cons x xs ih =>
    intro r c hr hc
    rcases xs with _ | ⟨y, ys⟩
    · simp only [List.getLast?_singleton] at hr
      injection hr with hr
      subst hr
      simpa [joinChar, List.intercalate] using hc
    · have hjoin : joinChar sep (x :: y :: ys) = x ++ sep :: joinChar sep (y :: ys) := by
        simp [joinChar, List.intercalate, List.intersperse_cons_cons]
      have hlast : (y :: ys).getLast? = some r := by
        rw [List.getLast?_cons_cons] at hr
        exact hr
      have hJ := ih r c hlast hc
      have hJne : joinChar sep (y :: ys) ≠ [] := by
        intro hnil
        rw [hnil] at hJ
        simp at hJ
      rw [hjoin, List.getLast?_append_of_ne_nil _ (by simp)]
      rw [getLast?_cons_of_ne_nil sep hJne]
      exact hJ

lemma trimChars_exportMSL {items : List MSLItem} (hne : items ≠ []) :
    trimChars (exportMSL items) = exportMSL items := by
  apply trimChars_eq_self
  · intro c hc
    rw [exportMSL, joinChar_head?_of_ne_nil _ _ _ (by decide)] at hc
    injection (show some 'C' = some c from hc) with h
    subst h
    rfl
  · intro c hc
    rcases hlast : items.getLast? with _ | ⟨j⟩
    · rw [List.getLast?_eq_none_iff] at hlast
      exact absurd hlast hne
    · have hrowlast : (mslExportHeader :: items.map exportMSLRow).getLast?
          = some (exportMSLRow j) := by
        rw [getLast?_cons_of_ne_nil mslExportHeader (l := items.map exportMSLRow)
          (by simpa using hne), List.getLast?_map, hlast]
        rfl
      have hj := joinChar_getLast? '\n' (mslExportHeader :: items.map exportMSLRow)
        (exportMSLRow j) '"' hrowlast (getLast?_exportMSLRow j)
      rw [exportMSL, hj] at hc
      injection hc with hc
      subst hc
      rfl

lemma csvLines_exportMSL {items : List MSLItem} (hne : items ≠ [])
    (hsafe : ∀ i ∈ items, ExportSafe i) :
    csvLines (exportMSL items) = mslExportHeader :: items.map exportMSLRow := by
  rw [csvLines, trimChars_exportMSL hne, exportMSL]
  apply splitOnChar_joinChar (by simp)
  intro l hl
  rcases List.mem_cons.mp hl with rfl | hl
  · decide
  · rcases List.mem_map.mp hl with ⟨i, hi, rfl⟩
    exact nl_not_mem_exportMSLRow (hsafe i hi)

lemma csvHeaderCells_exportMSL {items : List MSLItem} (hne : items ≠ [])
    (hsafe : ∀ i ∈ items, ExportSafe i) :
    csvHeaderCells (exportMSL items)
      = ["CATEGORY".toList, "SKU_CODE".toList, "PRODUCT_NAME".toList,
         "PRIORITY".toList, "NOTES".toList] := by
  rw [csvHeaderCells, csvLines_exportMSL hne hsafe]
  simp only [List.headI]
  decide

lemma csvMissingHeaders_exportMSL {items : List MSLItem} (hne : items ≠ [])
    (hsafe : ∀ i ∈ items, ExportSafe i) :
    csvMissingHeaders mslRequiredHeaders (exportMSL items) = [] := by
  simp only [csvMissingHeaders, csvHeaderCells_exportMSL hne hsafe]
  decide

lemma headerIndex_exportMSL {items : List MSLItem} (hne : items ≠ [])
    (hsafe : ∀ i ∈ items, ExportSafe i) :
    headerIndex (exportMSL items) ("CATEGORY".toList) = some 0 ∧
    headerIndex (exportMSL items) ("SKU_CODE".toList) = some 1 ∧
    headerIndex (exportMSL items) ("PRODUCT_NAME".toList) = some 2 ∧
    headerIndex (exportMSL items) ("PRIORITY".toList) = some 3 ∧
    headerIndex (exportMSL items) ("NOTES".toList) = some 4 := by
  have hh := csvHeaderCells_exportMSL hne hsafe
  refine ⟨?_, ?_, ?_, ?_, ?_⟩ <;> (rw [headerIndex, hh]; decide)

instance decidableExportSafe (i : MSLItem) : Decidable (ExportSafe i) := by
  unfold ExportSafe
  infer_instance

lemma export_fold_valid (items : List MSLItem) :
    ∀ (acc : List CsvMSLItem) (seen : List (List Char)),
    (∀ i ∈ items, ExportSafe i) →
    (items.map fun i => mslKey i.category i.sku_code).Nodup →
    (∀ i ∈ items, mslKey i.category i.sku_code ∉ seen) →
    ∃ produced,
      ((items.map exportMSLRow).foldl
          (mslFoldStep (some 0) (some 1) (some 2) (some 3) (some 4)) (acc, seen)).1
        = acc ++ produced ∧
      produced.length = items.length ∧
      ∀ r ∈ produced, r.isValid = true := by
  induction items with
  | nil =>
    intro acc seen _ _ _
    exact ⟨[], by simp, rfl, by simp⟩
  | cons i rest ih =>
    intro acc seen hsafe hnodup hseen
    rw [List.map_cons, List.foldl_cons]
    have hrow := parseMSLRow_export (hsafe i (List.mem_cons_self i rest))
      (hseen i (List.mem_cons_self i rest))
    have hstep : mslFoldStep (some 0) (some 1) (some 2) (some 3) (some 4) (acc, seen)
        (exportMSLRow i)
        = (acc ++ [{ category := i.category, sku_code := i.sku_code,
                     product_name := i.product_name, priority := some i.priority,
                     notes := i.notes.getD [], isValid := true, error := none }],
           mslKey i.category i.sku_code :: seen) := by
      simp only [mslFoldStep, hrow]
    rw [hstep]
    rw [List.map_cons] at hnodup
    obtain ⟨hki, hnodup'⟩ := List.nodup_cons.mp hnodup
    obtain ⟨produced, h1, h2, h3⟩ := ih
      (acc ++ [{ category := i.category, sku_code := i.sku_code,
                 product_name := i.product_name, priority := some i.priority,
                 notes := i.notes.getD [], isValid := true, error := none }])
      (mslKey i.category i.sku_code :: seen)
      (fun j hj => hsafe j (List.mem_cons_of_mem i hj)) hnodup'
      (fun j hj => by
        rw [List.mem_cons]
        rintro (heq | hmem)
        · exact hki (heq ▸ List.mem_map_of_mem _ hj)
        · exact hseen j (List.mem_cons_of_mem i hj) hmem)
    refine ⟨{ category := i.category, sku_code := i.sku_code,
              product_name := i.product_name, priority := some i.priority,
              notes := i.notes.getD [], isValid := true, error := none } :: produced,
      ?_, by simp [h2], ?_⟩
    · rw [h1, List.append_assoc]
      rfl
    · intro r hr
      rcases List.mem_cons.mp hr with rfl | hr
      · rfl
      · exact h3 r hr

/-- C3 (amended).  Exporting a non-empty set of stored MSL items whose
fields are free of commas and newlines, whose category and sku are
non-empty and already in decoded form, whose product name is non-empty,
whose priority is positive, and whose `category-sku` concatenation keys
are pairwise distinct, then re-parsing the exported CSV, yields one valid
row per item and no invalid rows. -/
theorem msl_export_roundtrip (items : List MSLItem) (hne : items ≠ [])
    (hsafe : ∀ i ∈ items, ExportSafe i)
    (hkeys : (items.map fun i => mslKey i.category i.sku_code).Nodup) :
    ∃ rows, parseCsvMSL (exportMSL items) = .ok rows ∧
      rows.length = items.length ∧
      (rows.filter (·.isValid)).length = items.length ∧
      (rows.filter fun r => !r.isValid).length = 0 := by
  have hlines := csvLines_exportMSL hne hsafe
  have hlen2 : ¬ (csvLines (exportMSL items)).length < 2 := by
    rw [hlines]
    have := List.length_pos.mpr hne
    simp only [List.length_cons, List.length_map]
    omega
  have hmiss := csvMissingHeaders_exportMSL hne hsafe
  have hidx := headerIndex_exportMSL hne hsafe
  obtain ⟨produced, h1, h2, h3⟩ := export_fold_valid items [] [] hsafe hkeys (by simp)
  refine ⟨produced, ?_, h2, ?_, ?_⟩
  · simp only [parseCsvMSL]
    rw [if_neg hlen2, if_neg (by rw [hmiss]; simp)]
    rw [hidx.1, hidx.2.1, hidx.2.2.1, hidx.2.2.2.1, hidx.2.2.2.2, hlines,
      List.tail_cons, h1]
    rfl
  · rw [List.filter_eq_self.mpr h3, h2]
  · rw [List.length_eq_zero, List.filter_eq_nil_iff]
    intro r hr
    rw [h3 r hr]
    decide

/-- Counterexample for C3: a stored item whose product name contains a
comma breaks the round trip — the exported line splits into six cells,
the priority cell is no longer numeric, and the re-parse marks the single
row invalid, so the valid count is `0`, not `1`. -/
theorem msl_export_roundtrip_counterexample :
    (parseCsvMSL (exportMSL
        [(⟨"A".toList, "B".toList, "x,y".toList, 1, none⟩ : MSLItem)])).toOption.map
      (fun rows => ((rows.filter (·.isValid)).length, rows.length)) = some (0, 1) ∧
    [(⟨"A".toList, "B".toList, "x,y".toList, 1, none⟩ : MSLItem)].length = 1 := by
  decide

/-- Witness for C3 (amended): a concrete two-item export parses back with
two valid rows and no invalid ones. -/
theorem msl_export_roundtrip_witness :
    ∃ rows, parseCsvMSL (exportMSL
        [(⟨"GT".toList, "LOR001".toList, "Mascara".toList, 1, some "top".toList⟩ : MSLItem),
         (⟨"GT".toList, "LOR002".toList, "Foundation".toList, 2, none⟩ : MSLItem)])
      = .ok rows ∧
      rows.length = 2 ∧
      (rows.filter (·.isValid)).length = 2 ∧
      (rows.filter fun r => !r.isValid).length = 0 :=
  msl_export_roundtrip _ (by decide) (by decide) (by decide)

end SalesDash
